import Mathlib

/-!
# Autocode engine of piemdm (`backend/internal/service/autocode.go`)

A shallow embedding of the autocode service: the pattern interpreter
`GenerateCode`, the orchestrator `GenerateOrRestoreAutocodes`, the cycle
resolver `getCycleValue`, `formatDate`, `buildIdentifier` and
`ensureGlobalIdExists`, together with the parts of the Go runtime they call
(`fmt.Sprintf`, `strconv.ParseUint`, `strings.ReplaceAll`, `time.Format`,
`time.ISOWeek`).

Go strings are Lean strings, `map[string]any` is a partial function from keys
to dynamic values, and the collaborators that the service reaches through
interfaces (counter store, table-field lookup, entity repository, clock) are
explicit state or explicit parameters.
-/

namespace Autocode

/-! ## Dynamic values (`any`) -/

/-- A finite `float64`, the number `(-1)^neg * mant * 2^exp`. JSON decoding, the
origin of every option map and field map, yields finite values only. -/
structure F64 where
  neg : Bool
  mant : Nat
  exp : Int
deriving DecidableEq, Repr

/-- The dynamic kinds an `any` can hold, as far as the service distinguishes them:
`int` stands for `int, int8, ..., int64`, `uint` for `uint, uint8, ..., uint64`,
and `other` for every remaining kind (nested object, array, ...), carrying the texts
that `%T` and `%v` print for it. -/
inductive Value where
  | nil
  | str (s : String)
  | int (i : Int)
  | uint (n : Nat)
  | float (f : F64)
  | bool (b : Bool)
  | other (typeName text : String)
deriving DecidableEq, Repr

/-- A Go `map[string]any`: absent keys are `none`. -/
abbrev FieldMap := String → Option Value

/-- The empty map (also the behaviour of a nil map on lookup). -/
def FieldMap.empty : FieldMap := fun _ => none

/-- The assignment `m[k] = v`. -/
def FieldMap.set (m : FieldMap) (k : String) (v : Value) : FieldMap :=
  fun k' => if k' = k then some v else m k'

/-- A map literal, later entries winning. -/
def FieldMap.ofList : List (String × Value) → FieldMap
  | [] => FieldMap.empty
  | (k, v) :: rest => fun k' => if k' = k then some v else FieldMap.ofList rest k'

/-! ## Decimal text -/

/-- The ASCII digit for `d < 10`. -/
def digitChar (d : Nat) : Char := Char.ofNat (48 + d)

/-- The digit loop of `strconv`/`fmt`: peel decimal digits off `n`, least significant
first, in front of `acc`. `fuel` bounds the number of digits. -/
def decimalAux : Nat → Nat → List Char → List Char
  | 0, _, acc => acc
  | fuel + 1, n, acc =>
    if n < 10 then digitChar n :: acc
    else decimalAux fuel (n / 10) (digitChar (n % 10) :: acc)

/-- The decimal digits of `n`, without padding (`"0"` for zero). -/
def decimal (n : Nat) : List Char := decimalAux (n + 1) n []

/-- The text `%d` prints for a signed integer. -/
def fmtInt (i : Int) : List Char :=
  if i < 0 then '-' :: decimal i.natAbs else decimal i.natAbs

/-- The accumulation loop of `strconv.ParseUint` in base 10: every character must be a
decimal digit. -/
def parseDigits : List Char → Nat → Option Nat
  | [], acc => some acc
  | c :: cs, acc =>
    if 48 ≤ c.toNat ∧ c.toNat ≤ 57 then parseDigits cs (acc * 10 + (c.toNat - 48)) else none

/-- The result of `strconv.ParseUint(s, 10, 64)`: `none` is an error (empty text, a character
that is not a digit, or a value that does not fit 64 bits). -/
def ParseUint (s : String) : Option Nat :=
  match s.data with
  | [] => none
  | cs =>
    match parseDigits cs 0 with
    | some n => if n < 2 ^ 64 then some n else none
    | none => none

/-- The conversion `int(f)` of a `float64`: the fraction is discarded; a value outside
the `int64` range gives the minimum `int64` (amd64 behaviour). -/
def F64.toInt (f : F64) : Int :=
  let mag : Nat := if 0 ≤ f.exp then f.mant * 2 ^ f.exp.toNat else f.mant / 2 ^ (-f.exp).toNat
  let v : Int := if f.neg then -(mag : Int) else (mag : Int)
  if -(2 : Int) ^ 63 ≤ v ∧ v < (2 : Int) ^ 63 then v else -(2 : Int) ^ 63

/-- The magnitude of a `float64` rounded to the nearest integer, ties to even. -/
def F64.roundMag (f : F64) : Nat :=
  if 0 ≤ f.exp then f.mant * 2 ^ f.exp.toNat
  else
    let d := 2 ^ (-f.exp).toNat
    let q := f.mant / d
    let r := f.mant % d
    if 2 * r < d then q else if d < 2 * r then q + 1 else if q % 2 = 0 then q else q + 1

/-- The text `%.0f` prints for a `float64`. -/
def fmtFloat0 (f : F64) : List Char :=
  if f.neg then '-' :: decimal f.roundMag else decimal f.roundMag

/-- The width limit of `fmt` for a `*` width (`tooLarge` in `fmt/print.go`). -/
def fmtMaxWidth : Int := 1000000

/-- The text of `fmt.Sprintf("%0*d", width, n)` for an unsigned `n`.
A width beyond `fmtMaxWidth` in magnitude is rejected by `fmt`, which prints
`%!(BADWIDTH)` and then the number without a width; a negative width means left
justification, which pads with blanks on the right and switches zero padding off. -/
def sprintfPad (width : Int) (n : Nat) : String :=
  let ds := decimal n
  if fmtMaxWidth < width ∨ width < -fmtMaxWidth then
    String.mk ("%!(BADWIDTH)".data ++ ds)
  else if width < 0 then
    String.mk (ds ++ List.replicate (width.natAbs - ds.length) ' ')
  else
    String.mk (List.replicate (width.toNat - ds.length) '0' ++ ds)

/-! ## Calendar and clock (`time`) -/

/-- One reading of the clock, as the civil fields `time.Now()` reports in the local
zone: date, time of day, zone abbreviation and zone offset in seconds east of UTC. -/
structure Instant where
  year : Int
  month : Nat
  day : Nat
  hour : Nat
  minute : Nat
  second : Nat
  nano : Nat
  zoneName : String
  zoneOffset : Int
deriving DecidableEq, Repr

/-- The year of day zero of the absolute calendar of `time` (a Monday, 1 January). -/
def absoluteZeroYear : Int := -292277022399

/-- The Gregorian leap year rule. -/
def isLeap (year : Int) : Bool :=
  year % 4 = 0 ∧ (year % 100 ≠ 0 ∨ year % 400 = 0)

/-- Days of a non-leap year before the first of each month (`daysBefore` in `time`). -/
def daysBefore : List Nat := [0, 31, 59, 90, 120, 151, 181, 212, 243, 273, 304, 334, 365]

/-- Days in a cycle of 400 years. -/
def daysPer400Years : Nat := 365 * 400 + 97

/-- Days in a century without its 400-year leap day. -/
def daysPer100Years : Nat := 365 * 100 + 24

/-- Days in four years with one leap day. -/
def daysPer4Years : Nat := 365 * 4 + 1

/-- Days from day zero to 1 January of `year` (`daysSinceEpoch` in `time`). -/
def daysSinceEpoch (year : Int) : Nat :=
  let y := (year - absoluteZeroYear).toNat
  let n400 := y / 400
  let y1 := y - 400 * n400
  let n100 := y1 / 100
  let y2 := y1 - 100 * n100
  let n4 := y2 / 4
  let y3 := y2 - 4 * n4
  daysPer400Years * n400 + daysPer100Years * n100 + daysPer4Years * n4 + 365 * y3

/-- The absolute day number of the date of an instant (as `time.Date` computes it). -/
def Instant.absDay (t : Instant) : Nat :=
  daysSinceEpoch t.year + daysBefore.getD (t.month - 1) 0
    + (if isLeap t.year ∧ 3 ≤ t.month then 1 else 0) + (t.day - 1)

/-- Year and zero-based day of the year of an absolute day (`absDate` in `time`). -/
def absYearDay (d0 : Nat) : Int × Nat :=
  let n400 := d0 / daysPer400Years
  let d1 := d0 - daysPer400Years * n400
  let n100a := d1 / daysPer100Years
  let n100 := n100a - n100a / 4
  let d2 := d1 - daysPer100Years * n100
  let n4 := d2 / daysPer4Years
  let d3 := d2 - daysPer4Years * n4
  let n1a := d3 / 365
  let n1 := n1a - n1a / 4
  let d4 := d3 - 365 * n1
  (((400 * n400 + 100 * n100 + 4 * n4 + n1 : Nat) : Int) + absoluteZeroYear, d4)

/-- The weekday of an absolute day, Sunday = 0, ..., Saturday = 6. -/
def absWeekday (d : Nat) : Nat := (d + 1) % 7

/-- The result of `t.ISOWeek()`: the ISO 8601 week-year and week number, read off the Thursday of
the week the instant lies in. -/
def Instant.ISOWeek (t : Instant) : Int × Nat :=
  let abs := t.absDay
  let d0 : Int := 4 - (absWeekday abs : Int)
  let d : Int := if d0 = 4 then -3 else d0
  let yd := absYearDay ((abs : Int) + d).toNat
  (yd.1, yd.2 / 7 + 1)

/-- The function `appendInt` of `time`: sign, zero padding up to `width` digits, digits. -/
def appendInt (x : Int) (width : Nat) : List Char :=
  let ds := decimal x.natAbs
  let body := List.replicate (width - ds.length) '0' ++ ds
  if x < 0 then '-' :: body else body

/-- The month names of `time`. -/
def longMonthNames : List String :=
  ["January", "February", "March", "April", "May", "June", "July", "August",
   "September", "October", "November", "December"]

/-- The weekday names of `time`, Sunday first. -/
def longDayNames : List String :=
  ["Sunday", "Monday", "Tuesday", "Wednesday", "Thursday", "Friday", "Saturday"]

/-- The name `Month.String()` gives. -/
def monthName (m : Nat) : List Char :=
  if 1 ≤ m ∧ m ≤ 12 then (longMonthNames.getD (m - 1) "").data
  else "%!Month(".data ++ decimal m ++ [')']

/-- The zone variants of a layout element: `Z07:00` style (`iso`) or `-07:00` style, with or
without colons, minutes and seconds. -/
structure ZoneStyle where
  iso : Bool
  colon : Bool
  minutes : Bool
  seconds : Bool
deriving DecidableEq, Repr

/-- The layout elements `time.Format` recognises (`std...` constants of `time`). -/
inductive Std where
  | longMonth | month | numMonth | zeroMonth
  | longWeekDay | weekDay
  | day | underDay | zeroDay | underYearDay | zeroYearDay
  | hour | hour12 | zeroHour12
  | minute | zeroMinute | second | zeroSecond
  | longYear | year
  | PM | pm
  | TZ
  | numTZ (style : ZoneStyle)
  | fracSecond (nine : Bool) (digits : Nat) (sep : Char)
deriving DecidableEq, Repr

/-- Does the text start with `p`? On a match the rest is returned. -/
def dropLit? (p : String) (l : List Char) : Option (List Char) :=
  if p.data.isPrefixOf l then some (l.drop p.data.length) else none

/-- Does the text start with a lower-case ASCII letter? -/
def startsWithLowerCase : List Char → Bool
  | [] => false
  | c :: _ => 'a'.toNat ≤ c.toNat ∧ c.toNat ≤ 'z'.toNat

/-- Is the character an ASCII digit? -/
def isDigitChar (c : Char) : Bool := 48 ≤ c.toNat ∧ c.toNat ≤ 57

/-- The first alternative that matches. -/
def firstSome {α : Type} : List (Option α) → Option α
  | [] => none
  | some a :: _ => some a
  | none :: rest => firstSome rest

/-- One position of `nextStdChunk`: does a layout element start here? The answer is the text
that still belongs to the literal prefix (only `_` before `2006`), the element and the rest. -/
def chunkAt (l : List Char) : Option (List Char × Std × List Char) :=
  let lit (p : String) (s : Std) : Option (List Char × Std × List Char) :=
    (dropLit? p l).map fun rest => ([], s, rest)
  match l with
  | [] => none
  | c :: tl =>
    if c = 'J' then
      match dropLit? "Jan" l with
      | none => none
      | some rest3 =>
        match dropLit? "January" l with
        | some rest => some ([], .longMonth, rest)
        | none => if startsWithLowerCase rest3 then none else some ([], .month, rest3)
    else if c = 'M' then
      match dropLit? "Mon" l with
      | some rest3 =>
        match dropLit? "Monday" l with
        | some rest => some ([], .longWeekDay, rest)
        | none => if startsWithLowerCase rest3 then none else some ([], .weekDay, rest3)
      | none => lit "MST" .TZ
    else if c = '0' then
      firstSome [lit "01" .zeroMonth, lit "02" .zeroDay, lit "03" .zeroHour12,
        lit "04" .zeroMinute, lit "05" .zeroSecond, lit "06" .year, lit "002" .zeroYearDay]
    else if c = '1' then
      match dropLit? "15" l with
      | some rest => some ([], .hour, rest)
      | none => some ([], .numMonth, tl)
    else if c = '2' then
      match dropLit? "2006" l with
      | some rest => some ([], .longYear, rest)
      | none => some ([], .day, tl)
    else if c = '_' then
      match dropLit? "_2" l with
      | some rest2 =>
        match dropLit? "_2006" l with
        | some rest => some (['_'], .longYear, rest)
        | none => some ([], .underDay, rest2)
      | none => lit "__2" .underYearDay
    else if c = '3' then some ([], .hour12, tl)
    else if c = '4' then some ([], .minute, tl)
    else if c = '5' then some ([], .second, tl)
    else if c = 'P' then lit "PM" .PM
    else if c = 'p' then lit "pm" .pm
    else if c = '-' then
      firstSome [lit "-070000" (.numTZ ⟨false, false, true, true⟩),
        lit "-07:00:00" (.numTZ ⟨false, true, true, true⟩),
        lit "-0700" (.numTZ ⟨false, false, true, false⟩),
        lit "-07:00" (.numTZ ⟨false, true, true, false⟩),
        lit "-07" (.numTZ ⟨false, false, false, false⟩)]
    else if c = 'Z' then
      firstSome [lit "Z070000" (.numTZ ⟨true, false, true, true⟩),
        lit "Z07:00:00" (.numTZ ⟨true, true, true, true⟩),
        lit "Z0700" (.numTZ ⟨true, false, true, false⟩),
        lit "Z07:00" (.numTZ ⟨true, true, true, false⟩),
        lit "Z07" (.numTZ ⟨true, false, false, false⟩)]
    else if c = '.' ∨ c = ',' then
      match tl with
      | [] => none
      | ch :: _ =>
        if ch = '0' ∨ ch = '9' then
          let run := tl.takeWhile (· = ch)
          let rest := tl.dropWhile (· = ch)
          match rest with
          | [] => some ([], .fracSecond (ch = '9') run.length c, rest)
          | r :: _ =>
            if isDigitChar r then none else some ([], .fracSecond (ch = '9') run.length c, rest)
        else none
    else none

/-- The function `nextStdChunk` of `time`: the literal prefix, the first layout element (if any) and the
layout after it. -/
def nextStdChunk : List Char → List Char × Option Std × List Char
  | [] => ([], none, [])
  | c :: tl =>
    match chunkAt (c :: tl) with
    | some (pre, s, rest) => (pre, some s, rest)
    | none =>
      match nextStdChunk tl with
      | (pre, s, rest) => (c :: pre, s, rest)

/-- The weekday name of an absolute day (`Weekday.String()`). -/
def weekdayName (d : Nat) : List Char := (longDayNames.getD (absWeekday d) "").data

/-- The zone offset as `time.Format` prints it for the numeric zone elements. -/
def formatZone (offset : Int) (st : ZoneStyle) : List Char :=
  if offset = 0 ∧ st.iso then ['Z']
  else
    let zone0 := Int.tdiv offset 60
    let neg : Bool := zone0 < 0
    let zone := if neg then -zone0 else zone0
    let absoffset := if neg then -offset else offset
    (if neg then ['-'] else ['+'])
      ++ appendInt (Int.tdiv zone 60) 2
      ++ (if st.colon then [':'] else [])
      ++ (if st.minutes then appendInt (Int.tmod zone 60) 2 else [])
      ++ (if st.seconds then
            (if st.colon then [':'] else []) ++ appendInt (Int.tmod absoffset 60) 2
          else [])

/-- Drop the trailing characters equal to `c`. -/
def dropTrailing (c : Char) (l : List Char) : List Char :=
  (l.reverse.dropWhile (· = c)).reverse

/-- The function `appendNano` of `time`: the fractional second with `n` digits after the separator; the `9`
variant trims trailing zeros and prints nothing for a whole second. -/
def appendNano (nanosec : Nat) (nine : Bool) (n : Nat) (sep : Char) : List Char :=
  if nine ∧ (n = 0 ∨ nanosec = 0) then []
  else
    let full := sep :: appendInt nanosec 9
    let cut := if n < 9 then full.take (full.length - 9 + n) else full
    if nine then
      let trimmed := dropTrailing '0' cut
      match trimmed.reverse with
      | c :: rest => if c = sep then rest.reverse else trimmed
      | [] => trimmed
    else cut

/-- The text one layout element stands for at instant `t`. -/
def formatChunk (t : Instant) : Std → List Char
  | .longMonth => monthName t.month
  | .month => (monthName t.month).take 3
  | .numMonth => appendInt t.month 0
  | .zeroMonth => appendInt t.month 2
  | .longWeekDay => weekdayName t.absDay
  | .weekDay => (weekdayName t.absDay).take 3
  | .day => appendInt t.day 0
  | .underDay => (if t.day < 10 then [' '] else []) ++ appendInt t.day 0
  | .zeroDay => appendInt t.day 2
  | .underYearDay =>
    let yday := (absYearDay t.absDay).2 + 1
    (if yday < 100 then ' ' :: (if yday < 10 then [' '] else []) else []) ++ appendInt yday 0
  | .zeroYearDay => appendInt ((absYearDay t.absDay).2 + 1 : Nat) 3
  | .hour => appendInt t.hour 2
  | .hour12 => appendInt (if t.hour % 12 = 0 then 12 else t.hour % 12 : Nat) 0
  | .zeroHour12 => appendInt (if t.hour % 12 = 0 then 12 else t.hour % 12 : Nat) 2
  | .minute => appendInt t.minute 0
  | .zeroMinute => appendInt t.minute 2
  | .second => appendInt t.second 0
  | .zeroSecond => appendInt t.second 2
  | .longYear => appendInt t.year 4
  | .year => appendInt ((t.year.natAbs % 100 : Nat) : Int) 2
  | .PM => if 12 ≤ t.hour then ['P', 'M'] else ['A', 'M']
  | .pm => if 12 ≤ t.hour then ['p', 'm'] else ['a', 'm']
  | .TZ =>
    if t.zoneName ≠ "" then t.zoneName.data
    else formatZone t.zoneOffset ⟨false, false, true, false⟩
  | .numTZ st => formatZone t.zoneOffset st
  | .fracSecond nine n sep => appendNano t.nano nine n sep

/-- The loop of `Time.AppendFormat`: copy the literal prefix, print the next layout element,
go on with the rest. Every round with an element consumes layout, so `fuel` above the
length of the layout never runs out. -/
def formatAux (t : Instant) : Nat → List Char → List Char
  | 0, _ => []
  | fuel + 1, layout =>
    match layout with
    | [] => []
    | _ :: _ =>
      match nextStdChunk layout with
      | (pre, none, _) => pre
      | (pre, some s, rest) => pre ++ formatChunk t s ++ formatAux t fuel rest

/-- The method `t.Format(layout)`. -/
def Instant.Format (t : Instant) (layout : String) : String :=
  String.mk (formatAux t (layout.data.length + 1) layout.data)

/-! ## Strings -/

/-- The scan of `strings.ReplaceAll` for a non-empty `old`: left to right, occurrences do not
overlap; `skip` counts the characters of a match still to be passed over. -/
def replaceAllAux (old new : List Char) : Nat → List Char → List Char
  | _, [] => []
  | skip + 1, _ :: tl => replaceAllAux old new skip tl
  | 0, c :: tl =>
    if old.isPrefixOf (c :: tl) then new ++ replaceAllAux old new (old.length - 1) tl
    else c :: replaceAllAux old new 0 tl

/-- The call `strings.ReplaceAll(s, old, new)`, `old` not empty. -/
def ReplaceAll (s old new : String) : String :=
  String.mk (replaceAllAux old.data new.data 0 s.data)

/-! ## The helpers of the service -/

/-- Translation of `formatDate`: the tokens `YYYY, YY, MM, DD, HH, mm, ss` are rewritten, in this
order, into the reference layout of `time.Format`, which then renders the instant. -/
def formatDate (t : Instant) (format : String) : String :=
  let goFormat := format
  let goFormat := ReplaceAll goFormat "YYYY" "2006"
  let goFormat := ReplaceAll goFormat "YY" "06"
  let goFormat := ReplaceAll goFormat "MM" "01"
  let goFormat := ReplaceAll goFormat "DD" "02"
  let goFormat := ReplaceAll goFormat "HH" "15"
  let goFormat := ReplaceAll goFormat "mm" "04"
  let goFormat := ReplaceAll goFormat "ss" "05"
  t.Format goFormat

/-- Translation of `getCycleValue`; `now` is the reading `time.Now()` returns inside it. -/
def getCycleValue (now : Instant) (cycle : String) : String :=
  if cycle = "daily" then now.Format "2006-01-02"
  else if cycle = "weekly" then
    let yw := now.ISOWeek
    String.mk (fmtInt yw.1) ++ "-W" ++ sprintfPad 2 yw.2
  else if cycle = "monthly" then now.Format "2006-01"
  else if cycle = "yearly" then now.Format "2006"
  else ""

/-- Translation of `buildIdentifier`. -/
def buildIdentifier (tableCode fieldCode cycleValue : String) : String :=
  if cycleValue = "" then tableCode ++ ":" ++ fieldCode ++ ":"
  else tableCode ++ ":" ++ fieldCode ++ ":" ++ cycleValue

/-! ## Data model (`model` package, read off its uses in the service) -/

/-- One segment of a code template (`model.SequencePattern`). -/
structure SequencePattern where
  type : String
  Options : FieldMap

/-- The options of a table field; only the patterns matter here. -/
structure FieldOptions where
  Patterns : List SequencePattern

/-- A table field (`model.TableField`); `Options` is a pointer and may be nil. -/
structure TableField where
  Code : String
  Options : Option FieldOptions

/-- A sequence counter row (`model.GlobalId`); `LastID` is a `uint`. -/
structure GlobalId where
  Identifier : String
  LastID : Nat
  Step : Nat
  Description : String
deriving DecidableEq, Repr

/-! ## The world around the service -/

/-- What the service can change or observe changing: the rows of the counter table, the number
of operations sent to the counter store so far and the number of clock readings so far. -/
structure World where
  rows : List GlobalId
  storeOps : Nat
  clockReads : Nat
deriving DecidableEq, Repr

/-- What the environment decides: the reading of each successive `time.Now()`, which store
operations fail because the store is unavailable, and two library tables taken as given, the
upper case of a rune above ASCII (the Unicode case tables behind `unicode.ToUpper`) and the
text `%v` prints for a `float64`. -/
structure Env where
  clock : Nat → Instant
  outage : Nat → Bool
  unicodeUpper : Char → Char
  fmtFloatV : F64 → String

/-- The ASCII branch of `strings.ToUpper`: the letters `a` to `z` move to `A` to `Z`, every
other character stays. -/
def asciiUpper (c : Char) : Char :=
  if 97 ≤ c.toNat ∧ c.toNat ≤ 122 then Char.ofNat (c.toNat - 32) else c

/-- The function `unicode.ToUpper`: an ASCII rune is mapped by the letter rule, any other rune
by the case tables. -/
def unicodeToUpper (env : Env) (c : Char) : Char :=
  if c.toNat ≤ 127 then asciiUpper c else env.unicodeUpper c

/-- The call `strings.ToUpper(s)`: text of ASCII characters only is mapped letter by letter,
any other text rune by rune with `unicode.ToUpper` (`strings.Map`). -/
def ToUpper (env : Env) (s : String) : String :=
  if s.data.all (fun c => c.toNat < 128) then String.mk (s.data.map asciiUpper)
  else String.mk (s.data.map (unicodeToUpper env))

/-- The text `fmt.Sprintf("%v", v)`. -/
def sprintV (env : Env) : Value → String
  | .nil => "<nil>"
  | .str s => s
  | .int i => String.mk (fmtInt i)
  | .uint n => String.mk (decimal n)
  | .float f => env.fmtFloatV f
  | .bool b => if b then "true" else "false"
  | .other _ text => text

/-- The call `time.Now()`: the next reading of the clock. -/
def World.now (env : Env) (w : World) : Instant × World :=
  (env.clock w.clockReads, { w with clockReads := w.clockReads + 1 })

/-! ## The sequence counter store (`GlobalIdService`) -/

/-- The conversion to `uint` of an `int`: reduction modulo `2^64`. -/
def toUint (i : Int) : Nat := (i % (2 : Int) ^ 64).toNat

/-- Modelled from the spec: the body of `GlobalIdService.List` is not among the sources. The
call `List(1, 1, &count, {"identifier": identifier})` returns the first page, of size one, of
the counters stored under `identifier`, or an error when the store is unavailable. -/
def GlobalIdService.List (env : Env) (identifier : String) (w : World) :
    Except String (List GlobalId) × World :=
  let w' := { w with storeOps := w.storeOps + 1 }
  if env.outage w.storeOps then (.error "counter store unavailable", w')
  else (.ok ((w.rows.filter fun g => g.Identifier = identifier).take 1), w')

/-- Modelled from the spec: the body of `GlobalIdService.Create` is not among the sources. The
identifier is a unique key, so creation is exclusive: it adds the row unless a counter with this
identifier exists, which is an error, as is an unavailable store. -/
def GlobalIdService.Create (env : Env) (g : GlobalId) (w : World) : Option String × World :=
  let w' := { w with storeOps := w.storeOps + 1 }
  if env.outage w.storeOps then (some "counter store unavailable", w')
  else if w.rows.any (fun r => r.Identifier = g.Identifier) then
    (some "duplicate identifier", w')
  else (none, { w' with rows := w.rows ++ [g] })

/-- Add `Step` to `LastID` (as `uint`) in the first row stored under `identifier`; the new value
and the new rows, or `none` when there is no such row. -/
def allocate (identifier : String) : List GlobalId → Option (Nat × List GlobalId)
  | [] => none
  | g :: gs =>
    if g.Identifier = identifier then
      let v := (g.LastID + g.Step) % 2 ^ 64
      some (v, { g with LastID := v } :: gs)
    else
      match allocate identifier gs with
      | some (v, gs') => some (v, g :: gs')
      | none => none

/-- Modelled from the spec: the body of `GlobalIdService.GetNewID` is not among the sources.
In one atomic step it adds `step` to `lastAllocated` and returns the new value. The Go method
returns a number only, so a missing counter or an unavailable store gives 0 and changes
no row. -/
def GlobalIdService.GetNewID (env : Env) (identifier : String) (w : World) : Nat × World :=
  let w' := { w with storeOps := w.storeOps + 1 }
  if env.outage w.storeOps then (0, w')
  else
    match allocate identifier w.rows with
    | some (v, rows') => (v, { w' with rows := rows' })
    | none => (0, w')

/-- Translation of `ensureGlobalIdExists`: look the identifier up, return when a counter is
there, otherwise create one with `LastID = uint(start - 1)` and `Step = 1`. The result is the
returned error, `none` for nil. -/
def ensureGlobalIdExists (env : Env) (identifier : String) (start : Int)
    (tableCode fieldCode : String) (w : World) : Option String × World :=
  match GlobalIdService.List env identifier w with
  | (.error err, w1) => (some err, w1)
  | (.ok globalIds, w1) =>
    if globalIds.length > 0 then (none, w1)
    else
      let globalId : GlobalId :=
        { Identifier := identifier
          LastID := toUint (start - 1)
          Step := 1
          Description := "自动编码: " ++ tableCode ++ "." ++ fieldCode }
      GlobalIdService.Create env globalId w1

/-! ## The pattern interpreter -/

/-- The cycle policy of an integer segment: the option `cycle` when it is a string, otherwise
`"none"`. -/
def cycleOption (options : FieldMap) : String :=
  match options "cycle" with
  | some (.str cycleStr) => cycleStr
  | _ => "none"

/-- The starting value of an integer segment: the variable `start` of `GenerateCode` is
overwritten with `int(startVal)` when the option `start` is a `float64` and keeps its current
value otherwise. -/
def startOption (start : Int) (options : FieldMap) : Int :=
  match options "start" with
  | some (.float startVal) => startVal.toInt
  | _ => start

/-- The width of the sequence number: `digits := 5`, replaced by `int(digitsVal)` when the
option `digits` is a `float64`. -/
def digitsOption (options : FieldMap) : Int :=
  match options "digits" with
  | some (.float digitsVal) => digitsVal.toInt
  | _ => 5

/-- The local variables of `GenerateCode` that live across loop rounds, and the world. -/
structure GenState where
  result : String
  cycle : String
  start : Int
  world : World

deriving instance DecidableEq for Except

/-- The outcome of one loop round of `GenerateCode`: go on, or return an error. -/
inductive Round where
  | next (st : GenState)
  | fail (err : String) (world : World)

/-- One round of the loop of `GenerateCode`, the `switch` on the pattern type. -/
def renderPattern (env : Env) (tableCode fieldCode : String) (entityMap : FieldMap)
    (st : GenState) (pattern : SequencePattern) : Round :=
  if pattern.type = "string" then
    match pattern.Options "value" with
    | some (.str value) => .next { st with result := st.result ++ value }
    | _ => .next st
  else if pattern.type = "date" then
    match pattern.Options "format" with
    | some (.str format) =>
      let (now, w1) := st.world.now env
      .next { st with result := st.result ++ formatDate now format, world := w1 }
    | _ => .next st
  else if pattern.type = "field" then
    match pattern.Options "fieldCode" with
    | some (.str fieldCodeStr) =>
      match entityMap fieldCodeStr with
      | some .nil | none =>
        .fail ("field " ++ fieldCodeStr ++ " is required for autocode but not provided or is nil")
          st.world
      | some (.str v) => .next { st with result := st.result ++ ToUpper env v }
      | some (.int v) => .next { st with result := st.result ++ ToUpper env (String.mk (fmtInt v)) }
      | some (.uint v) =>
        .next { st with result := st.result ++ ToUpper env (String.mk (decimal v)) }
      | some (.float v) =>
        .next { st with result := st.result ++ ToUpper env (String.mk (fmtFloat0 v)) }
      | some (.bool _) =>
        .fail ("field " ++ fieldCodeStr ++ " has unsupported type for autocode: bool") st.world
      | some (.other typeName _) =>
        .fail ("field " ++ fieldCodeStr ++ " has unsupported type for autocode: " ++ typeName)
          st.world
    | _ => .next st
  else if pattern.type = "integer" then
    let cycle := cycleOption pattern.Options
    let start := startOption st.start pattern.Options
    let (now, w1) := st.world.now env
    let cycleValue := getCycleValue now cycle
    let identifier := buildIdentifier tableCode fieldCode cycleValue
    match ensureGlobalIdExists env identifier start tableCode fieldCode w1 with
    | (some err, w2) => .fail ("failed to ensure global_id exists: " ++ err) w2
    | (none, w2) =>
      let (nextID, w3) := GlobalIdService.GetNewID env identifier w2
      let digits := digitsOption pattern.Options
      .next { result := st.result ++ sprintfPad digits nextID, cycle := cycle, start := start,
              world := w3 }
  else .next st

/-- The loop of `GenerateCode` over the patterns. -/
def renderPatterns (env : Env) (tableCode fieldCode : String) (entityMap : FieldMap) :
    List SequencePattern → GenState → Except String String × World
  | [], st => (.ok st.result, st.world)
  | pattern :: rest, st =>
    match renderPattern env tableCode fieldCode entityMap st pattern with
    | .fail err w => (.error err, w)
    | .next st' => renderPatterns env tableCode fieldCode entityMap rest st'

/-- The loop of `GenerateCode` with its local variables: the state after the last pattern, or
the error that ended the loop. -/
def runPatterns (env : Env) (tableCode fieldCode : String) (entityMap : FieldMap) :
    List SequencePattern → GenState → Round
  | [], st => .next st
  | pattern :: rest, st =>
    match renderPattern env tableCode fieldCode entityMap st pattern with
    | .fail err w => .fail err w
    | .next st' => runPatterns env tableCode fieldCode entityMap rest st'

/-- The first value of the pair a Go function `(string, error)` returns: the text, which is
empty whenever `GenerateCode` returns an error. -/
def codeOf : Except String String → String
  | .ok code => code
  | .error _ => ""

/-- Translation of `GenerateCode`: the code or the error, and the world it leaves. On an
error Go returns the empty string as the code. -/
def GenerateCode (env : Env) (tableCode fieldCode : String) (patterns : List SequencePattern)
    (entityMap : FieldMap) (w : World) : Except String String × World :=
  renderPatterns env tableCode fieldCode entityMap patterns
    { result := "", cycle := "", start := 1, world := w }

/-! ## The orchestrator -/

/-- The three outcomes of `EntityRepository.FindOne`: an error, no error and a nil map, or
the stored row. -/
inductive FindOneResult where
  | error (err : String)
  | missing
  | row (existing : FieldMap)

/-- The table-field lookup, `Find(fields, where)`: the fields or an error. -/
structure TableFieldService where
  Find : String → FieldMap → Except String (List TableField)

/-- The entity repository, `FindOne(tableCode, id)`. -/
structure EntityRepository where
  FindOne : String → Nat → FindOneResult

/-- The test `ok && v != nil && v != ""` on a map lookup. -/
def present : Option Value → Bool
  | none => false
  | some .nil => false
  | some (.str s) => s ≠ ""
  | some _ => true

/-- The id of the request: `entity_id` when it is present and
`strconv.ParseUint(fmt.Sprintf("%v", entityID), 10, 64)` succeeds with a positive value. -/
def requestID (env : Env) (entityMap : FieldMap) : Option Nat :=
  if present (entityMap "entity_id") then
    match entityMap "entity_id" with
    | some entityID =>
      match ParseUint (sprintV env entityID) with
      | some idUint => if idUint > 0 then some idUint else none
      | none => none
    | none => none
  else none

/-- The restore loop: every autocode field the prior row has a value for gets that value. -/
def restoreFields (existing : FieldMap) : List TableField → FieldMap → FieldMap
  | [], entityMap => entityMap
  | field :: rest, entityMap =>
    match existing field.Code with
    | some existingVal => restoreFields existing rest (entityMap.set field.Code existingVal)
    | none => restoreFields existing rest entityMap

/-- One round of the generation loop: a field that holds a value is skipped, a field without
patterns too, any other field is rendered and stored. An error ends the whole call; it comes
with the world the failed rendering left. -/
def generateField (env : Env) (tableCode : String) (field : TableField) (entityMap : FieldMap)
    (w : World) : Except (String × World) (FieldMap × World) :=
  if present (entityMap field.Code) then .ok (entityMap, w)
  else
    match field.Options with
    | some options =>
      if options.Patterns.length > 0 then
        match GenerateCode env tableCode field.Code options.Patterns entityMap w with
        | (.error err, w1) => .error ("生成自动编码失败: " ++ err, w1)
        | (.ok code, w1) => .ok (entityMap.set field.Code (.str code), w1)
      else .ok (entityMap, w)
    | none => .ok (entityMap, w)

/-- The generation loop over the autocode fields, in the order of the metadata lookup; the
first rendering error ends it. -/
def generateFields (env : Env) (tableCode : String) :
    List TableField → FieldMap → World → Option String × FieldMap × World
  | [], entityMap, w => (none, entityMap, w)
  | field :: rest, entityMap, w =>
    match generateField env tableCode field entityMap w with
    | .error (err, w1) => (some err, entityMap, w1)
    | .ok (entityMap1, w1) => generateFields env tableCode rest entityMap1 w1

/-- The filter of the metadata lookup. -/
def fieldWhere (tableCode : String) : FieldMap :=
  FieldMap.ofList
    [("table_code", .str tableCode), ("field_type", .str "autocode"), ("status", .str "Normal")]

/-- Is the request an edit, `operation` printing as `Update` or `BatchUpdate`? -/
def isUpdate (env : Env) (entityMap : FieldMap) : Bool :=
  match entityMap "operation" with
  | some operation =>
    let opStr := sprintV env operation
    opStr = "Update" ∨ opStr = "BatchUpdate"
  | none => false

/-- Translation of `GenerateOrRestoreAutocodes`: the returned error (`none` for nil), the
field map as the call leaves it (Go mutates it in place) and the world. The logger is
written to only and is left out. -/
def GenerateOrRestoreAutocodes (env : Env) (tableCode : String) (entityMap : FieldMap)
    (tableFieldService : TableFieldService) (entityRepository : EntityRepository)
    (w : World) : Option String × FieldMap × World :=
  match tableFieldService.Find "code,options" (fieldWhere tableCode) with
  | .error _ => (none, entityMap, w)
  | .ok autocodeFields =>
    if isUpdate env entityMap then
      match requestID env entityMap with
      | some idUint =>
        match entityRepository.FindOne tableCode idUint with
        | .row existing => (none, restoreFields existing autocodeFields entityMap, w)
        | _ => (none, entityMap, w)
      | none => (none, entityMap, w)
    else
      let found : Bool :=
        match requestID env entityMap with
        | some idUint =>
          match entityRepository.FindOne tableCode idUint with
          | .error _ => false
          | _ => true
        | none => false
      if found then (none, entityMap, w)
      else generateFields env tableCode autocodeFields entityMap w

/-! ## Concurrent callers of the integer segment

Several requests run the store operations of the integer segment (`List`, then `Create` when
nothing was found, then `GetNewID`) against one counter store. Each store operation is atomic;
a schedule says which caller issues its next operation. -/

/-- Where a caller stands between two store operations of the integer segment. -/
inductive Caller where
  | looking
  | creating
  | allocating
  | obtained (value : Nat)
  | failed (err : String)
deriving DecidableEq, Repr

/-- The next store operation of one caller, with the control flow of `ensureGlobalIdExists`
and of the integer case of `GenerateCode` around it. -/
def Caller.step (env : Env) (identifier : String) (start : Int) (tableCode fieldCode : String)
    (c : Caller) (w : World) : Caller × World :=
  match c with
  | .looking =>
    match GlobalIdService.List env identifier w with
    | (.error err, w1) => (.failed ("failed to ensure global_id exists: " ++ err), w1)
    | (.ok globalIds, w1) => if globalIds.length > 0 then (.allocating, w1) else (.creating, w1)
  | .creating =>
    let globalId : GlobalId :=
      { Identifier := identifier
        LastID := toUint (start - 1)
        Step := 1
        Description := "自动编码: " ++ tableCode ++ "." ++ fieldCode }
    match GlobalIdService.Create env globalId w with
    | (some err, w1) => (.failed ("failed to ensure global_id exists: " ++ err), w1)
    | (none, w1) => (.allocating, w1)
  | .allocating =>
    match GlobalIdService.GetNewID env identifier w with
    | (nextID, w1) => (.obtained nextID, w1)
  | .obtained v => (.obtained v, w)
  | .failed err => (.failed err, w)

/-- Run a schedule: each entry names the caller that takes its next step. -/
def runSchedule (env : Env) (identifier : String) (start : Int) (tableCode fieldCode : String) :
    List Nat → List Caller → World → List Caller × World
  | [], callers, w => (callers, w)
  | i :: rest, callers, w =>
    match callers.get? i with
    | none => runSchedule env identifier start tableCode fieldCode rest callers w
    | some c =>
      match Caller.step env identifier start tableCode fieldCode c w with
      | (c', w') =>
        runSchedule env identifier start tableCode fieldCode rest (callers.set i c') w'

/-! ## Reference notions the properties are stated with -/

/-- The decimal digits of `n`, padded on the left with `0` up to `width` characters. -/
def zeroPadded (width : Nat) (n : Nat) : List Char :=
  List.replicate (max width (decimal n).length - (decimal n).length) '0' ++ decimal n

/-- Do two instants fall in the same window of a cycle policy? The same calendar day, the same
ISO 8601 week (week-year and week number), the same calendar month, the same calendar year;
the policy `none` has a single window. -/
def sameWindow (cycle : String) (t₁ t₂ : Instant) : Prop :=
  if cycle = "daily" then t₁.year = t₂.year ∧ t₁.month = t₂.month ∧ t₁.day = t₂.day
  else if cycle = "weekly" then t₁.ISOWeek = t₂.ISOWeek
  else if cycle = "monthly" then t₁.year = t₂.year ∧ t₁.month = t₂.month
  else if cycle = "yearly" then t₁.year = t₂.year
  else True

/-- The character `r` is the upper case of the character `c`, for ASCII following the letter
rule (`a` to `z` are moved down by 32, everything else stays) and above ASCII following the
case table of the environment. -/
def UpperOf (env : Env) (c r : Char) : Prop :=
  (97 ≤ c.toNat ∧ c.toNat ≤ 122 → r.toNat = c.toNat - 32)
  ∧ (c.toNat ≤ 127 → ¬ (97 ≤ c.toNat ∧ c.toNat ≤ 122) → r = c)
  ∧ (127 < c.toNat → r = env.unicodeUpper c)

/-- An environment in which the counter store is always available. -/
def Env.storeUp (env : Env) : Prop := ∀ k, env.outage k = false

/-- No counter is stored under `identifier`. -/
def World.fresh (w : World) (identifier : String) : Prop :=
  ∀ g ∈ w.rows, g.Identifier ≠ identifier

/-! ## Concrete data for the scenarios -/

/-- The instant 15 March 2024, 10:30:05, UTC+8. -/
def march2024 : Instant := ⟨2024, 3, 15, 10, 30, 5, 0, "CST", 28800⟩

/-- A quiet environment: the clock stands at `march2024`, the store is available, the case
table knows the lower-case letters of Latin-1 (`à` to `þ` without `÷`) and a `float64` prints
without a fraction. -/
def quietEnv : Env :=
  { clock := fun _ => march2024
    outage := fun _ => false
    unicodeUpper := fun c =>
      if 224 ≤ c.toNat ∧ c.toNat ≤ 254 ∧ c.toNat ≠ 247 then Char.ofNat (c.toNat - 32) else c
    fmtFloatV := fun f => String.mk (fmtFloat0 f) }

/-- The world before anything happened: no counters, no operations. -/
def emptyWorld : World := ⟨[], 0, 0⟩

/-- The `float64` with the value of a natural number. -/
def F64.ofNat (n : Nat) : F64 := ⟨false, n, 0⟩

/-- The counter row `ensureGlobalIdExists` creates. -/
def newCounter (identifier : String) (start : Int) (tableCode fieldCode : String) : GlobalId :=
  { Identifier := identifier
    LastID := toUint (start - 1)
    Step := 1
    Description := "自动编码: " ++ tableCode ++ "." ++ fieldCode }

/-- Two integer segments with different cycles; only the first one carries a `start` option. -/
def carryPatterns : List SequencePattern :=
  [ ⟨"integer", FieldMap.ofList [("cycle", .str "yearly"), ("start", .float (F64.ofNat 100))]⟩,
    ⟨"integer", FieldMap.ofList [("cycle", .str "monthly")]⟩ ]

/-- The patterns of the invoice scenario: `INV-`, the date as `YYYYMM`, a monthly sequence of
four digits starting at 1. -/
def invoicePatterns : List SequencePattern :=
  [ ⟨"string", FieldMap.ofList [("value", .str "INV-")]⟩,
    ⟨"date", FieldMap.ofList [("format", .str "YYYYMM")]⟩,
    ⟨"integer", FieldMap.ofList
      [("cycle", .str "monthly"), ("digits", .float (F64.ofNat 4)), ("start", .float (F64.ofNat 1))]⟩ ]

/-- An edit of entity 7 whose payload carries a forged value for the autocode field `code`. -/
def updateRequest : FieldMap :=
  FieldMap.ofList
    [("operation", .str "Update"), ("entity_id", .uint 7), ("code", .str "FORGED")]

/-- The stored row of entity 7. -/
def priorRow : FieldMap := FieldMap.ofList [("code", .str "INV-202403-0001")]

/-- A repository that holds entity 7 only. -/
def priorRepository : EntityRepository :=
  ⟨fun _ id => if id = 7 then .row priorRow else .error "record not found"⟩

/-- A table whose only autocode field is `code`, with the invoice patterns. -/
def codeLookup : TableFieldService :=
  ⟨fun _ _ => .ok [⟨"code", some ⟨invoicePatterns⟩⟩]⟩

/-- A creation whose payload supplies the autocode field `code`. -/
def createRequest : FieldMap :=
  FieldMap.ofList [("operation", .str "Create"), ("code", .str "MANUAL-1")]

/-- A creation that supplies no field besides the operation. -/
def bareRequest : FieldMap := FieldMap.ofList [("operation", .str "Create")]

/-- An autocode field `code` built from the field `dept`, followed by an autocode field
`serial` with the invoice patterns. -/
def deptFields : List TableField :=
  [ ⟨"code", some ⟨[⟨"field", FieldMap.ofList [("fieldCode", .str "dept")]⟩]⟩⟩,
    ⟨"serial", some ⟨invoicePatterns⟩⟩ ]

/-- A field segment that refers to the field `dept`. -/
def deptPattern : SequencePattern :=
  ⟨"field", FieldMap.ofList [("fieldCode", .str "dept")]⟩

/-- A record whose field `dept` is the integer 42. -/
def deptNumber : FieldMap := FieldMap.ofList [("dept", .int 42)]

/-- A record whose field `dept` is the empty string. -/
def deptEmpty : FieldMap := FieldMap.ofList [("dept", .str "")]

/-- A record whose field `dept` is an ASCII text with lower-case letters. -/
def deptText : FieldMap := FieldMap.ofList [("dept", .str "r&d-7z")]

/-- A record whose field `dept` is a text with a letter above ASCII. -/
def deptAccent : FieldMap := FieldMap.ofList [("dept", .str "café")]

/-- A creation whose field `dept` is the empty string. -/
def emptyDeptRequest : FieldMap :=
  FieldMap.ofList [("operation", .str "Create"), ("dept", .str "")]

/-- A table whose only autocode field is `code`, built from the literal `INV-` and the field
`dept`. -/
def deptLookup : TableFieldService :=
  ⟨fun _ _ => .ok
    [⟨"code", some ⟨[⟨"string", FieldMap.ofList [("value", .str "INV-")]⟩, deptPattern]⟩⟩]⟩

/-! # Properties -/

/-! ## Decimal text: basic facts -/

theorem decimalAux_acc (fuel n : Nat) (acc : List Char) :
    decimalAux fuel n acc = decimalAux fuel n [] ++ acc := by
  induction fuel generalizing n acc with
  | zero => simp [decimalAux]
  | succ fuel ih =>
    unfold decimalAux
    split
    · simp
    · rw [ih (n / 10) (digitChar (n % 10) :: acc), ih (n / 10) [digitChar (n % 10)]]
      simp

theorem decimalAux_fuel (fuel₁ fuel₂ n : Nat) (acc : List Char) (h₁ : n < fuel₁)
    (h₂ : n < fuel₂) : decimalAux fuel₁ n acc = decimalAux fuel₂ n acc := by
  induction fuel₁ generalizing fuel₂ n acc with
  | zero => omega
  | succ fuel₁ ih =>
    cases fuel₂ with
    | zero => omega
    | succ fuel₂ =>
      unfold decimalAux
      split
      · rfl
      · exact ih fuel₂ (n / 10) _ (by omega) (by omega)

theorem decimal_small (n : Nat) (h : n < 10) : decimal n = [digitChar n] := by
  unfold decimal decimalAux
  simp [h]

theorem decimal_large (n : Nat) (h : 10 ≤ n) :
    decimal n = decimal (n / 10) ++ [digitChar (n % 10)] := by
  have h' : ¬ n < 10 := by omega
  conv_lhs => unfold decimal decimalAux
  simp only [h', if_false]
  rw [decimalAux_acc, decimalAux_fuel n (n / 10 + 1) (n / 10) [] (by omega) (by omega)]
  rfl

theorem digitChar_toNat (d : Nat) (h : d < 10) : (digitChar d).toNat = 48 + d := by
  interval_cases d <;> rfl

theorem decimal_ne_nil (n : Nat) : decimal n ≠ [] := by
  by_cases h : n < 10
  · simp [decimal_small n h]
  · rw [decimal_large n (by omega)]; simp

theorem decimal_length_pos (n : Nat) : 0 < (decimal n).length :=
  List.length_pos.mpr (decimal_ne_nil n)

theorem decimal_digits (n : Nat) : ∀ c ∈ decimal n, 48 ≤ c.toNat ∧ c.toNat ≤ 57 := by
  induction n using Nat.strong_induction_on with
  | _ n ih =>
    by_cases h : n < 10
    · intro c hc
      rw [decimal_small n h] at hc
      simp at hc
      subst hc
      rw [digitChar_toNat n h]; omega
    · intro c hc
      rw [decimal_large n (by omega)] at hc
      rcases List.mem_append.mp hc with hc | hc
      · exact ih (n / 10) (by omega) c hc
      · simp at hc
        subst hc
        rw [digitChar_toNat (n % 10) (by omega)]; omega

theorem parseDigits_append (l₁ l₂ : List Char) (acc : Nat) :
    parseDigits (l₁ ++ l₂) acc = (parseDigits l₁ acc).bind (parseDigits l₂) := by
  induction l₁ generalizing acc with
  | nil => simp [parseDigits]
  | cons c cs ih =>
    simp only [List.cons_append, parseDigits]
    split
    · exact ih _
    · rfl

theorem parseDigits_decimal (n acc : Nat) :
    parseDigits (decimal n) acc = some (acc * 10 ^ (decimal n).length + n) := by
  induction n using Nat.strong_induction_on generalizing acc with
  | _ n ih =>
    by_cases h : n < 10
    · rw [decimal_small n h]
      have : 48 + n ≤ 57 := by omega
      simp [parseDigits, digitChar_toNat n h, this]
    · rw [decimal_large n (by omega), parseDigits_append, ih (n / 10) (by omega)]
      simp only [Option.some_bind, parseDigits, digitChar_toNat (n % 10) (by omega),
        List.length_append, List.length_singleton]
      have : 48 ≤ 48 + n % 10 ∧ 48 + n % 10 ≤ 57 := by omega
      simp only [this, and_self, if_true, Option.some.injEq]
      have h₁ : 48 + n % 10 - 48 = n % 10 := by omega
      rw [h₁, pow_succ]
      generalize 10 ^ (decimal (n / 10)).length = p
      have h₂ := Nat.div_add_mod n 10
      have h₃ : acc * (p * 10) = acc * p * 10 := by ring
      omega

theorem parseDigits_zeros (k : Nat) (l : List Char) :
    parseDigits (List.replicate k '0' ++ l) 0 = parseDigits l 0 := by
  induction k with
  | zero => simp
  | succ k ih =>
    simp only [List.replicate_succ, List.cons_append, parseDigits]
    have : (48 : Nat) ≤ '0'.toNat ∧ '0'.toNat ≤ 57 := by decide
    simp only [this, and_self, if_true]
    simpa using ih

theorem parseDigits_decimal_zero (n : Nat) : parseDigits (decimal n) 0 = some n := by
  rw [parseDigits_decimal]; simp

theorem decimal_injective (n m : Nat) (h : decimal n = decimal m) : n = m := by
  have h₁ := parseDigits_decimal_zero n
  rw [h, parseDigits_decimal_zero] at h₁
  exact (Option.some.inj h₁).symm

/-! ## Splitting text at a separator -/

theorem append_sep_inj {α : Type} (sep : α) (a a' b b' : List α) (ha : sep ∉ a)
    (ha' : sep ∉ a') (h : a ++ sep :: b = a' ++ sep :: b') : a = a' ∧ b = b' := by
  induction a generalizing a' with
  | nil =>
    cases a' with
    | nil => simpa using h
    | cons x xs =>
      simp only [List.nil_append, List.cons_append, List.cons.injEq] at h
      exact absurd (h.1 ▸ List.mem_cons_self _ _) ha'
  | cons y ys ih =>
    cases a' with
    | nil =>
      simp only [List.nil_append, List.cons_append, List.cons.injEq] at h
      exact absurd (h.1 ▸ List.mem_cons_self _ _) ha
    | cons x xs =>
      simp only [List.cons_append, List.cons.injEq] at h
      have := ih xs (fun hm => ha (List.mem_cons_of_mem _ hm))
        (fun hm => ha' (List.mem_cons_of_mem _ hm)) h.2
      exact ⟨by rw [h.1, this.1], this.2⟩

/-- Zero padding in front of the digits of a number: all digits, and it reads back. -/
theorem padded_digits (k n : Nat) :
    ∀ c ∈ List.replicate k '0' ++ decimal n, 48 ≤ c.toNat ∧ c.toNat ≤ 57 := by
  intro c hc
  rcases List.mem_append.mp hc with hc | hc
  · rw [(List.mem_replicate.mp hc).2]; decide
  · exact decimal_digits n c hc

theorem padded_parse (k n : Nat) :
    parseDigits (List.replicate k '0' ++ decimal n) 0 = some n := by
  rw [parseDigits_zeros, parseDigits_decimal_zero]

theorem padded_injective (k k' n n' : Nat)
    (h : List.replicate k '0' ++ decimal n = List.replicate k' '0' ++ decimal n') : n = n' := by
  have h₁ := padded_parse k n
  rw [h, padded_parse] at h₁
  exact (Option.some.inj h₁).symm

theorem appendInt_nat (n width : Nat) :
    appendInt (n : Int) width
      = List.replicate (width - (decimal n).length) '0' ++ decimal n := by
  simp [appendInt]

theorem appendInt_nat_injective (n n' width : Nat)
    (h : appendInt (n : Int) width = appendInt (n' : Int) width) : n = n' := by
  rw [appendInt_nat, appendInt_nat] at h
  exact padded_injective _ _ _ _ h

theorem appendInt_nat_digits (n width : Nat) :
    ∀ c ∈ appendInt (n : Int) width, 48 ≤ c.toNat ∧ c.toNat ≤ 57 := by
  rw [appendInt_nat]; exact padded_digits _ _

/-- A sign in front of digits: the sign and the digits can be read off the text. -/
theorem signed_inj (p q : Prop) [Decidable p] [Decidable q] (b b' : List Char)
    (hb : ∀ c ∈ b, 48 ≤ c.toNat ∧ c.toNat ≤ 57) (hb' : ∀ c ∈ b', 48 ≤ c.toNat ∧ c.toNat ≤ 57)
    (hne : b ≠ []) (hne' : b' ≠ [])
    (h : (if p then '-' :: b else b) = (if q then '-' :: b' else b')) : (p ↔ q) ∧ b = b' := by
  have hminus : ¬ (48 ≤ '-'.toNat ∧ '-'.toNat ≤ 57) := by decide
  by_cases hp : p <;> by_cases hq : q <;> simp only [hp, hq, if_true, if_false] at h
  · exact ⟨by simp [hp, hq], by simpa using h⟩
  · cases b' with
    | nil => exact absurd rfl hne'
    | cons x xs =>
      simp only [List.cons.injEq] at h
      exact absurd (hb' x (List.mem_cons_self _ _)) (h.1 ▸ hminus)
  · cases b with
    | nil => exact absurd rfl hne
    | cons x xs =>
      simp only [List.cons.injEq] at h
      exact absurd (hb x (List.mem_cons_self _ _)) (h.1 ▸ hminus)
  · exact ⟨by simp [hp, hq], h⟩

theorem int_of_sign_natAbs (x y : Int) (hs : x < 0 ↔ y < 0) (ha : x.natAbs = y.natAbs) :
    x = y := by omega

theorem appendInt_injective (x y : Int) (width : Nat)
    (h : appendInt x width = appendInt y width) : x = y := by
  unfold appendInt at h
  simp only at h
  have := signed_inj (x < 0) (y < 0) _ _ (padded_digits _ _) (padded_digits _ _)
    (by simp [decimal_ne_nil]) (by simp [decimal_ne_nil]) h
  exact int_of_sign_natAbs x y this.1 (padded_injective _ _ _ _ this.2)

theorem fmtInt_injective (x y : Int) (h : fmtInt x = fmtInt y) : x = y := by
  unfold fmtInt at h
  have := signed_inj (x < 0) (y < 0) _ _ (decimal_digits _) (decimal_digits _)
    (decimal_ne_nil _) (decimal_ne_nil _) h
  exact int_of_sign_natAbs x y this.1 (decimal_injective _ _ this.2)

/-! ## The layouts of the cycle resolver -/

theorem format_daily (t : Instant) :
    t.Format "2006-01-02"
      = String.mk (appendInt t.year 4 ++ '-' :: (appendInt t.month 2 ++ '-' :: appendInt t.day 2)) := by
  have h : t.Format "2006-01-02"
      = String.mk (appendInt t.year 4 ++ ('-' :: (appendInt t.month 2
          ++ ('-' :: (appendInt t.day 2 ++ []))))) := rfl
  rw [h, List.append_nil]

theorem format_monthly (t : Instant) :
    t.Format "2006-01" = String.mk (appendInt t.year 4 ++ '-' :: appendInt t.month 2) := by
  have h : t.Format "2006-01"
      = String.mk (appendInt t.year 4 ++ ('-' :: (appendInt t.month 2 ++ []))) := rfl
  rw [h, List.append_nil]

theorem format_yearly (t : Instant) : t.Format "2006" = String.mk (appendInt t.year 4) := by
  have h : t.Format "2006" = String.mk (appendInt t.year 4 ++ []) := rfl
  rw [h, List.append_nil]

theorem key_weekly (t : Instant) :
    getCycleValue t "weekly"
      = String.mk (fmtInt t.ISOWeek.1 ++ '-' :: 'W' ::
          (List.replicate (2 - (decimal t.ISOWeek.2).length) '0' ++ decimal t.ISOWeek.2)) := by
  have h : getCycleValue t "weekly"
      = String.mk (fmtInt t.ISOWeek.1) ++ "-W" ++ sprintfPad 2 t.ISOWeek.2 := rfl
  rw [h]
  have h₂ : sprintfPad 2 t.ISOWeek.2
      = String.mk (List.replicate (2 - (decimal t.ISOWeek.2).length) '0'
          ++ decimal t.ISOWeek.2) := by
    unfold sprintfPad fmtMaxWidth
    simp
  rw [h₂]
  apply String.ext
  simp

/-! ## The layout loop does not run out of fuel -/

theorem dropLit_length (p : String) (l rest : List Char) (hp : 0 < p.data.length)
    (h : dropLit? p l = some rest) : rest.length < l.length := by
  unfold dropLit? at h
  split at h
  · next hpre =>
    have hle : p.data.length ≤ l.length :=
      (List.isPrefixOf_iff_prefix.mp hpre).length_le
    injection h with h
    rw [← h, List.length_drop]
    omega
  · exact absurd h (by simp)

theorem lit_length (p : String) (s : Std) (l : List Char) (hp : 0 < p.data.length)
    (r : List Char × Std × List Char)
    (h : (dropLit? p l).map (fun rest => (([] : List Char), s, rest)) = some r) :
    r.2.2.length < l.length := by
  cases hd : dropLit? p l with
  | none => rw [hd] at h; exact absurd h (by simp)
  | some rest =>
    rw [hd] at h
    simp only [Option.map_some'] at h
    injection h with h
    rw [← h]
    exact dropLit_length p l rest hp hd

theorem firstSome_mem {α : Type} (xs : List (Option α)) (a : α) (h : firstSome xs = some a) :
    some a ∈ xs := by
  induction xs with
  | nil => exact absurd h (by simp [firstSome])
  | cons x xs ih =>
    cases x with
    | none => exact List.mem_cons_of_mem _ (ih (by simpa [firstSome] using h))
    | some b =>
      simp only [firstSome, Option.some.injEq] at h
      rw [h]
      exact List.mem_cons_self _ _

theorem chunkAt_length (l : List Char) (r : List Char × Std × List Char)
    (h : chunkAt l = some r) : r.2.2.length < l.length := by
  unfold chunkAt at h
  simp only at h
  split at h
  · exact absurd h (by simp)
  · next c tl =>
    have htl : tl.length < (c :: tl).length := by simp
    have hdw : ∀ p : Char → Bool, (tl.dropWhile p).length < (c :: tl).length := by
      intro p
      have := (List.dropWhile_suffix p (l := tl)).length_le
      simp only [List.length_cons]
      omega
    by_cases h1 : c = 'J'
    · rw [if_pos h1] at h
      split at h
      · exact absurd h (by simp)
      · next rest3 h3 =>
        split at h
        · next rest h7 =>
          injection h with h; rw [← h]
          exact dropLit_length _ _ _ (by decide) h7
        · split at h
          · exact absurd h (by simp)
          · injection h with h; rw [← h]
            exact dropLit_length _ _ _ (by decide) h3
    rw [if_neg h1] at h
    by_cases h2 : c = 'M'
    · rw [if_pos h2] at h
      split at h
      · next rest3 h3 =>
        split at h
        · next rest h6 =>
          injection h with h; rw [← h]
          exact dropLit_length _ _ _ (by decide) h6
        · split at h
          · exact absurd h (by simp)
          · injection h with h; rw [← h]
            exact dropLit_length _ _ _ (by decide) h3
      · exact lit_length _ _ _ (by decide) r h
    rw [if_neg h2] at h
    by_cases h3 : c = '0'
    · rw [if_pos h3] at h
      have hm := firstSome_mem _ _ h
      simp only [List.mem_cons, List.mem_singleton, List.not_mem_nil, or_false] at hm
      rcases hm with hm | hm | hm | hm | hm | hm | hm <;>
        exact lit_length _ _ _ (by decide) r hm.symm
    rw [if_neg h3] at h
    by_cases h4 : c = '1'
    · rw [if_pos h4] at h
      split at h
      · next rest hr =>
        injection h with h; rw [← h]
        exact dropLit_length _ _ _ (by decide) hr
      · injection h with h; rw [← h]
        exact htl
    rw [if_neg h4] at h
    by_cases h5 : c = '2'
    · rw [if_pos h5] at h
      split at h
      · next rest hr =>
        injection h with h; rw [← h]
        exact dropLit_length _ _ _ (by decide) hr
      · injection h with h; rw [← h]
        exact htl
    rw [if_neg h5] at h
    by_cases h6 : c = '_'
    · rw [if_pos h6] at h
      split at h
      · next rest2 h2' =>
        split at h
        · next rest hr =>
          injection h with h; rw [← h]
          exact dropLit_length _ _ _ (by decide) hr
        · injection h with h; rw [← h]
          exact dropLit_length _ _ _ (by decide) h2'
      · exact lit_length _ _ _ (by decide) r h
    rw [if_neg h6] at h
    by_cases h7 : c = '3'
    · rw [if_pos h7] at h
      injection h with h; rw [← h]
      exact htl
    rw [if_neg h7] at h
    by_cases h8 : c = '4'
    · rw [if_pos h8] at h
      injection h with h; rw [← h]
      exact htl
    rw [if_neg h8] at h
    by_cases h9 : c = '5'
    · rw [if_pos h9] at h
      injection h with h; rw [← h]
      exact htl
    rw [if_neg h9] at h
    by_cases h10 : c = 'P'
    · rw [if_pos h10] at h
      exact lit_length _ _ _ (by decide) r h
    rw [if_neg h10] at h
    by_cases h11 : c = 'p'
    · rw [if_pos h11] at h
      exact lit_length _ _ _ (by decide) r h
    rw [if_neg h11] at h
    by_cases h12 : c = '-'
    · rw [if_pos h12] at h
      have hm := firstSome_mem _ _ h
      simp only [List.mem_cons, List.mem_singleton, List.not_mem_nil, or_false] at hm
      rcases hm with hm | hm | hm | hm | hm <;>
        exact lit_length _ _ _ (by decide) r hm.symm
    rw [if_neg h12] at h
    by_cases h13 : c = 'Z'
    · rw [if_pos h13] at h
      have hm := firstSome_mem _ _ h
      simp only [List.mem_cons, List.mem_singleton, List.not_mem_nil, or_false] at hm
      rcases hm with hm | hm | hm | hm | hm <;>
        exact lit_length _ _ _ (by decide) r hm.symm
    rw [if_neg h13] at h
    by_cases h14 : c = '.' ∨ c = ','
    · rw [if_pos h14] at h
      split at h
      · exact absurd h (by simp)
      · next ch tl' =>
        have hdw' := hdw (fun x => decide (x = ch))
        split at h
        · split at h
          · injection h with h; rw [← h]
            exact hdw'
          · split at h
            · exact absurd h (by simp)
            · injection h with h; rw [← h]
              exact hdw'
        · exact absurd h (by simp)
    rw [if_neg h14] at h
    exact absurd h (by simp)

theorem nextStdChunk_length (l pre rest : List Char) (s : Std)
    (h : nextStdChunk l = (pre, some s, rest)) : rest.length < l.length := by
  induction l generalizing pre with
  | nil => exact absurd h (by simp [nextStdChunk])
  | cons c tl ih =>
    rw [nextStdChunk] at h
    split at h
    · next pre' s' rest' hc =>
      have := chunkAt_length _ _ hc
      injection h with _ h
      injection h with _ h
      rw [← h]
      exact this
    · split at h
      next pre' s' rest' hn =>
      injection h with _ h
      injection h with hs h
      have := ih pre' (by rw [hn, hs, h])
      simp only [List.length_cons]
      omega

/-- Fuel above the length of the layout is enough: the result of the layout loop does not
depend on how much more there is. -/
theorem formatAux_fuel (t : Instant) (fuel₁ fuel₂ : Nat) (layout : List Char)
    (h₁ : layout.length < fuel₁) (h₂ : layout.length < fuel₂) :
    formatAux t fuel₁ layout = formatAux t fuel₂ layout := by
  induction fuel₁ generalizing fuel₂ layout with
  | zero => omega
  | succ fuel₁ ih =>
    cases fuel₂ with
    | zero => omega
    | succ fuel₂ =>
      cases layout with
      | nil => rfl
      | cons c tl =>
        rw [formatAux, formatAux]
        cases hn : nextStdChunk (c :: tl) with
        | mk pre r =>
          obtain ⟨s, rest⟩ := r
          cases s with
          | none => rfl
          | some s =>
            have hlen := nextStdChunk_length _ _ _ _ hn
            simp only
            rw [ih fuel₂ rest (by omega) (by omega)]

/-! ## ISO weeks and cycle keys -/

theorem mk_inj (a b : List Char) (h : String.mk a = String.mk b) : a = b :=
  congrArg String.data h

/-- The decomposition `absDate` computes: whole 400-, 100-, 4- and 1-year cycles and the day of
the year. -/
theorem absYearDay_spec (d : Nat) :
    ∃ a b c e yd : Nat, b ≤ 3 ∧ c ≤ 24 ∧ e ≤ 3 ∧ yd ≤ 365 ∧
      d = 146097 * a + 36524 * b + 1461 * c + 365 * e + yd ∧
      absYearDay d = (((400 * a + 100 * b + 4 * c + e : Nat) : Int) + absoluteZeroYear, yd) := by
  have h400 : daysPer400Years = 146097 := rfl
  have h100 : daysPer100Years = 36524 := rfl
  have h4 : daysPer4Years = 1461 := rfl
  unfold absYearDay
  rw [h400, h100, h4]
  simp only
  generalize ha : d / 146097 = a
  generalize hd1 : d - 146097 * a = d1
  have hd1' : d = 146097 * a + d1 ∧ d1 < 146097 := by omega
  clear ha hd1
  generalize hb0 : d1 / 36524 = b0
  generalize hb : b0 - b0 / 4 = b
  have hb' : b ≤ 3 ∧ 36524 * b ≤ d1 ∧ d1 ≤ 36524 * b + 36524 ∧ (b < 3 → d1 < 36524 * b + 36524) := by
    omega
  clear hb hb0
  generalize hd2 : d1 - 36524 * b = d2
  have hd2' : d1 = 36524 * b + d2 ∧ d2 ≤ 36524 := by omega
  clear hd2
  generalize hc : d2 / 1461 = c
  generalize hd3 : d2 - 1461 * c = d3
  have hd3' : d2 = 1461 * c + d3 ∧ d3 < 1461 ∧ c ≤ 24 := by omega
  clear hc hd3
  generalize he0 : d3 / 365 = e0
  generalize he : e0 - e0 / 4 = e
  have he' : e ≤ 3 ∧ 365 * e ≤ d3 ∧ d3 ≤ 365 * e + 365 := by omega
  clear he he0
  generalize hd4 : d3 - 365 * e = d4
  have hd4' : d3 = 365 * e + d4 ∧ d4 ≤ 365 := by omega
  refine ⟨a, b, c, e, d4, hb'.1, hd3'.2.2, he'.1, hd4'.2, by omega, rfl⟩

theorem thursday_of_week (a : Nat) :
    ((a : Int) + (if (4 - (absWeekday a : Int)) = 4 then -3 else 4 - (absWeekday a : Int))).toNat
      = 7 * (a / 7) + 3 := by
  unfold absWeekday
  split <;> omega

/-- Two Thursdays with the same year and the same week number are the same day. -/
theorem same_thursday (w₁ w₂ : Nat)
    (hy : (absYearDay (7 * w₁ + 3)).1 = (absYearDay (7 * w₂ + 3)).1)
    (hw : (absYearDay (7 * w₁ + 3)).2 / 7 = (absYearDay (7 * w₂ + 3)).2 / 7) : w₁ = w₂ := by
  obtain ⟨a₁, b₁, c₁, e₁, y₁, hb₁, hc₁, he₁, _, hd₁, hs₁⟩ := absYearDay_spec (7 * w₁ + 3)
  obtain ⟨a₂, b₂, c₂, e₂, y₂, hb₂, hc₂, he₂, _, hd₂, hs₂⟩ := absYearDay_spec (7 * w₂ + 3)
  rw [hs₁, hs₂] at hy hw
  simp only at hy hw
  have hyear : 400 * a₁ + 100 * b₁ + 4 * c₁ + e₁ = 400 * a₂ + 100 * b₂ + 4 * c₂ + e₂ := by
    omega
  have ha : a₁ = a₂ := by omega
  have hb : b₁ = b₂ := by omega
  have hc : c₁ = c₂ := by omega
  have he : e₁ = e₂ := by omega
  subst ha hb hc he
  omega

theorem isoWeek_eq_iff (t₁ t₂ : Instant) :
    t₁.ISOWeek = t₂.ISOWeek ↔ t₁.absDay / 7 = t₂.absDay / 7 := by
  unfold Instant.ISOWeek
  simp only [thursday_of_week]
  constructor
  · intro h
    simp only [Prod.mk.injEq, add_left_inj] at h
    exact same_thursday _ _ h.1 h.2
  · intro h
    rw [h]

theorem append_sep_inj_right {α : Type} (sep : α) (a a' b b' : List α) (hb : sep ∉ b)
    (hb' : sep ∉ b') (h : a ++ sep :: b = a' ++ sep :: b') : a = a' ∧ b = b' := by
  have h' : b.reverse ++ sep :: a.reverse = b'.reverse ++ sep :: a'.reverse := by
    have := congrArg List.reverse h
    simpa using this
  have := append_sep_inj sep b.reverse b'.reverse a.reverse a'.reverse
    (by simpa using hb) (by simpa using hb') h'
  exact ⟨List.reverse_injective this.2, List.reverse_injective this.1⟩

theorem not_mem_of_digits (c : Char) (hc : ¬ (48 ≤ c.toNat ∧ c.toNat ≤ 57)) (l : List Char)
    (hl : ∀ x ∈ l, 48 ≤ x.toNat ∧ x.toNat ≤ 57) : c ∉ l :=
  fun hm => hc (hl c hm)

theorem daily_key_iff (t₁ t₂ : Instant) :
    getCycleValue t₁ "daily" = getCycleValue t₂ "daily"
      ↔ t₁.year = t₂.year ∧ t₁.month = t₂.month ∧ t₁.day = t₂.day := by
  have h₁ : getCycleValue t₁ "daily" = t₁.Format "2006-01-02" := rfl
  have h₂ : getCycleValue t₂ "daily" = t₂.Format "2006-01-02" := rfl
  rw [h₁, h₂, format_daily, format_daily]
  constructor
  · intro h
    have h := mk_inj _ _ h
    have h' : (appendInt t₁.year 4 ++ '-' :: appendInt t₁.month 2) ++ '-' :: appendInt t₁.day 2
        = (appendInt t₂.year 4 ++ '-' :: appendInt t₂.month 2) ++ '-' :: appendInt t₂.day 2 := by
      simpa using h
    have hd := append_sep_inj_right '-' _ _ _ _
      (not_mem_of_digits '-' (by decide) _ (appendInt_nat_digits t₁.day 2))
      (not_mem_of_digits '-' (by decide) _ (appendInt_nat_digits t₂.day 2)) h'
    have hm := append_sep_inj_right '-' _ _ _ _
      (not_mem_of_digits '-' (by decide) _ (appendInt_nat_digits t₁.month 2))
      (not_mem_of_digits '-' (by decide) _ (appendInt_nat_digits t₂.month 2)) hd.1
    exact ⟨appendInt_injective _ _ _ hm.1, appendInt_nat_injective _ _ _ hm.2,
      appendInt_nat_injective _ _ _ hd.2⟩
  · rintro ⟨hy, hm, hd⟩
    rw [hy, hm, hd]

theorem monthly_key_iff (t₁ t₂ : Instant) :
    getCycleValue t₁ "monthly" = getCycleValue t₂ "monthly"
      ↔ t₁.year = t₂.year ∧ t₁.month = t₂.month := by
  have h₁ : getCycleValue t₁ "monthly" = t₁.Format "2006-01" := rfl
  have h₂ : getCycleValue t₂ "monthly" = t₂.Format "2006-01" := rfl
  rw [h₁, h₂, format_monthly, format_monthly]
  constructor
  · intro h
    have h := mk_inj _ _ h
    have hm := append_sep_inj_right '-' _ _ _ _
      (not_mem_of_digits '-' (by decide) _ (appendInt_nat_digits t₁.month 2))
      (not_mem_of_digits '-' (by decide) _ (appendInt_nat_digits t₂.month 2)) h
    exact ⟨appendInt_injective _ _ _ hm.1, appendInt_nat_injective _ _ _ hm.2⟩
  · rintro ⟨hy, hm⟩
    rw [hy, hm]

theorem yearly_key_iff (t₁ t₂ : Instant) :
    getCycleValue t₁ "yearly" = getCycleValue t₂ "yearly" ↔ t₁.year = t₂.year := by
  have h₁ : getCycleValue t₁ "yearly" = t₁.Format "2006" := rfl
  have h₂ : getCycleValue t₂ "yearly" = t₂.Format "2006" := rfl
  rw [h₁, h₂, format_yearly, format_yearly]
  constructor
  · intro h
    exact appendInt_injective _ _ _ (mk_inj _ _ h)
  · intro hy
    rw [hy]

theorem weekly_key_iff (t₁ t₂ : Instant) :
    getCycleValue t₁ "weekly" = getCycleValue t₂ "weekly" ↔ t₁.ISOWeek = t₂.ISOWeek := by
  rw [key_weekly, key_weekly]
  constructor
  · intro h
    have h := mk_inj _ _ h
    have h' : (fmtInt t₁.ISOWeek.1 ++ ['-']) ++ 'W' :: (List.replicate
          (2 - (decimal t₁.ISOWeek.2).length) '0' ++ decimal t₁.ISOWeek.2)
        = (fmtInt t₂.ISOWeek.1 ++ ['-']) ++ 'W' :: (List.replicate
          (2 - (decimal t₂.ISOWeek.2).length) '0' ++ decimal t₂.ISOWeek.2) := by
      simpa using h
    have hw := append_sep_inj_right 'W' _ _ _ _
      (not_mem_of_digits 'W' (by decide) _ (padded_digits _ _))
      (not_mem_of_digits 'W' (by decide) _ (padded_digits _ _)) h'
    have hy : fmtInt t₁.ISOWeek.1 = fmtInt t₂.ISOWeek.1 := List.append_cancel_right hw.1
    exact Prod.ext (fmtInt_injective _ _ hy) (padded_injective _ _ _ _ hw.2)
  · intro h
    rw [h]

theorem key_none (t : Instant) : getCycleValue t "none" = "" := by
  unfold getCycleValue
  simp

theorem isoWeek_of_date (t : Instant) :
    t.ISOWeek = (⟨t.year, t.month, t.day, 0, 0, 0, 0, "", 0⟩ : Instant).ISOWeek := by
  simp only [Instant.ISOWeek, Instant.absDay]

/-- C6: for each cycle policy `none, daily, weekly, monthly, yearly` and any two instants, the
cycle keys `getCycleValue` computes are equal exactly when the instants fall in the same window
of the policy: always for `none`, the same calendar day, the same ISO 8601 week (week-year and
week number), the same calendar month, the same calendar year. The ISO week is the
Monday-to-Sunday week of the day, and 2024-12-30 and 2025-01-01 share their weekly key. -/
theorem cycle_key_same_window (t₁ t₂ : Instant) :
    (getCycleValue t₁ "none" = getCycleValue t₂ "none" ↔ sameWindow "none" t₁ t₂)
    ∧ (getCycleValue t₁ "daily" = getCycleValue t₂ "daily" ↔ sameWindow "daily" t₁ t₂)
    ∧ (getCycleValue t₁ "weekly" = getCycleValue t₂ "weekly" ↔ sameWindow "weekly" t₁ t₂)
    ∧ (getCycleValue t₁ "monthly" = getCycleValue t₂ "monthly" ↔ sameWindow "monthly" t₁ t₂)
    ∧ (getCycleValue t₁ "yearly" = getCycleValue t₂ "yearly" ↔ sameWindow "yearly" t₁ t₂)
    ∧ (sameWindow "weekly" t₁ t₂ ↔ t₁.absDay / 7 = t₂.absDay / 7)
    ∧ (∀ h m s n z o h' m' s' n' z' o', getCycleValue ⟨2024, 12, 30, h, m, s, n, z, o⟩ "weekly"
        = getCycleValue ⟨2025, 1, 1, h', m', s', n', z', o'⟩ "weekly") := by
  have hn : sameWindow "none" t₁ t₂ = True := by simp [sameWindow]
  have hd : sameWindow "daily" t₁ t₂
      = (t₁.year = t₂.year ∧ t₁.month = t₂.month ∧ t₁.day = t₂.day) := by simp [sameWindow]
  have hw : sameWindow "weekly" t₁ t₂ = (t₁.ISOWeek = t₂.ISOWeek) := by simp [sameWindow]
  have hm : sameWindow "monthly" t₁ t₂ = (t₁.year = t₂.year ∧ t₁.month = t₂.month) := by
    simp [sameWindow]
  have hy : sameWindow "yearly" t₁ t₂ = (t₁.year = t₂.year) := by simp [sameWindow]
  rw [hn, hd, hw, hm, hy]
  refine ⟨?_, daily_key_iff t₁ t₂, weekly_key_iff t₁ t₂, monthly_key_iff t₁ t₂,
    yearly_key_iff t₁ t₂, isoWeek_eq_iff t₁ t₂, ?_⟩
  · exact iff_of_true (by rw [key_none, key_none]) trivial
  · intro h m s n z o h' m' s' n' z' o'
    refine (weekly_key_iff _ _).mpr ?_
    rw [isoWeek_of_date ⟨2024, 12, 30, h, m, s, n, z, o⟩,
      isoWeek_of_date ⟨2025, 1, 1, h', m', s', n', z', o'⟩]
    show (⟨2024, 12, 30, 0, 0, 0, 0, "", 0⟩ : Instant).ISOWeek
      = (⟨2025, 1, 1, 0, 0, 0, 0, "", 0⟩ : Instant).ISOWeek
    decide

/-! ## Identifiers -/

theorem buildIdentifier_data (tableCode fieldCode cycleValue : String) :
    (buildIdentifier tableCode fieldCode cycleValue).data
      = tableCode.data ++ ':' :: (fieldCode.data ++ ':' :: cycleValue.data) := by
  unfold buildIdentifier
  split
  · next h => subst h; simp [String.data_append]
  · simp [String.data_append]

theorem buildIdentifier_eq (tableCode fieldCode cycleValue : String) :
    buildIdentifier tableCode fieldCode cycleValue
      = tableCode ++ ":" ++ fieldCode ++ ":" ++ cycleValue := by
  apply String.ext
  rw [buildIdentifier_data]
  simp [String.data_append]

/-! ## Zero padding -/

theorem zeroPadded_length (width n : Nat) :
    (zeroPadded width n).length = max width (decimal n).length := by
  unfold zeroPadded
  simp only [List.length_append, List.length_replicate]
  omega

theorem sprintfPad_of_width (d : Int) (n : Nat) (h₀ : 0 ≤ d) (h₁ : d ≤ 1000000) :
    sprintfPad d n = String.mk (zeroPadded d.toNat n) := by
  unfold sprintfPad zeroPadded fmtMaxWidth
  have h₂ : ¬ ((1000000 : Int) < d ∨ d < -1000000) := by omega
  have h₃ : ¬ d < 0 := by omega
  simp only [h₂, h₃, if_false]
  have h₄ : max d.toNat (decimal n).length - (decimal n).length
      = d.toNat - (decimal n).length := by omega
  rw [h₄]

theorem sprintfPad_too_wide (d : Int) (n : Nat) (h : 1000000 < d) :
    sprintfPad d n = String.mk ("%!(BADWIDTH)".data ++ decimal n) := by
  unfold sprintfPad fmtMaxWidth
  simp [h]

theorem zeroPadded_parse (width n : Nat) : parseDigits (zeroPadded width n) 0 = some n := by
  unfold zeroPadded
  exact padded_parse _ _

theorem zeroPadded_ne_nil (width n : Nat) : zeroPadded width n ≠ [] := by
  unfold zeroPadded
  simp [decimal_ne_nil]

theorem ParseUint_zeroPadded (width n : Nat) (hn : n < 2 ^ 64) :
    ParseUint (String.mk (zeroPadded width n)) = some n := by
  unfold ParseUint
  simp only
  split
  · next h => exact absurd h (zeroPadded_ne_nil width n)
  · rw [zeroPadded_parse]
    have hn' : n < 18446744073709551616 := by simpa using hn
    simp [hn']

/-! ## The counter store: basic facts -/

theorem filter_fresh (rows : List GlobalId) (identifier : String)
    (h : ∀ g ∈ rows, g.Identifier ≠ identifier) :
    rows.filter (fun g => g.Identifier = identifier) = [] := by
  rw [List.filter_eq_nil_iff]
  intro g hg
  simpa using h g hg

theorem any_fresh (rows : List GlobalId) (identifier : String)
    (h : ∀ g ∈ rows, g.Identifier ≠ identifier) :
    rows.any (fun r => r.Identifier = identifier) = false := by
  rw [List.any_eq_false]
  intro g hg
  simpa using h g hg

theorem filter_existing (rows : List GlobalId) (identifier : String)
    (h : ∃ g ∈ rows, g.Identifier = identifier) :
    ((rows.filter (fun g => g.Identifier = identifier)).take 1).length > 0 := by
  obtain ⟨g, hg, hid⟩ := h
  have hm : g ∈ rows.filter (fun g => g.Identifier = identifier) := by
    rw [List.mem_filter]
    exact ⟨hg, by simpa using hid⟩
  have hpos : 0 < (rows.filter (fun g => g.Identifier = identifier)).length :=
    List.length_pos_of_mem hm
  rw [List.length_take]
  omega

theorem allocate_append (rows : List GlobalId) (g : GlobalId) (identifier : String)
    (h : ∀ r ∈ rows, r.Identifier ≠ identifier) (hg : g.Identifier = identifier) :
    allocate identifier (rows ++ [g])
      = some ((g.LastID + g.Step) % 2 ^ 64,
          rows ++ [{ g with LastID := (g.LastID + g.Step) % 2 ^ 64 }]) := by
  induction rows with
  | nil => simp [allocate, hg]
  | cons r rs ih =>
    have hr : r.Identifier ≠ identifier := h r (List.mem_cons_self _ _)
    have ih' := ih (fun x hx => h x (List.mem_cons_of_mem _ hx))
    have hcons : (r :: rs) ++ [g] = r :: (rs ++ [g]) := rfl
    rw [hcons]
    unfold allocate
    simp only [hr, if_false, ih']
    rfl

theorem toUint_pred (start : Int) (h₁ : 1 ≤ start) (h₂ : start < 2 ^ 63) :
    ((toUint (start - 1) : Nat) : Int) = start - 1 := by
  unfold toUint
  have h₃ : (start - 1) % (2 : Int) ^ 64 = start - 1 :=
    Int.emod_eq_of_lt (by omega) (by omega)
  rw [h₃]
  omega

theorem list_fresh (env : Env) (identifier : String) (w : World)
    (hup : env.outage w.storeOps = false) (hf : w.fresh identifier) :
    GlobalIdService.List env identifier w = (.ok [], { w with storeOps := w.storeOps + 1 }) := by
  unfold GlobalIdService.List
  simp [hup, filter_fresh w.rows identifier hf]

theorem ensure_fresh (env : Env) (identifier : String) (start : Int)
    (tableCode fieldCode : String) (w : World) (hup₀ : env.outage w.storeOps = false)
    (hup₁ : env.outage (w.storeOps + 1) = false) (hf : w.fresh identifier) :
    ensureGlobalIdExists env identifier start tableCode fieldCode w
      = (none, { rows := w.rows ++ [newCounter identifier start tableCode fieldCode]
                 storeOps := w.storeOps + 2
                 clockReads := w.clockReads }) := by
  unfold ensureGlobalIdExists
  rw [list_fresh env identifier w hup₀ hf]
  simp only [List.length_nil, gt_iff_lt, lt_self_iff_false, if_false]
  unfold GlobalIdService.Create
  simp only [hup₁, any_fresh w.rows identifier hf]
  rfl

theorem ensure_existing (env : Env) (identifier : String) (start : Int)
    (tableCode fieldCode : String) (w : World) (hup₀ : env.outage w.storeOps = false)
    (hex : ∃ g ∈ w.rows, g.Identifier = identifier) :
    ensureGlobalIdExists env identifier start tableCode fieldCode w
      = (none, { w with storeOps := w.storeOps + 1 }) := by
  unfold ensureGlobalIdExists GlobalIdService.List
  have := filter_existing w.rows identifier hex
  simp only [hup₀, Bool.false_eq_true, if_false]
  rw [if_pos this]

theorem getNewID_append (env : Env) (identifier : String) (w : World) (rows : List GlobalId)
    (g : GlobalId) (hup : env.outage w.storeOps = false) (hrows : w.rows = rows ++ [g])
    (h : ∀ r ∈ rows, r.Identifier ≠ identifier) (hg : g.Identifier = identifier) :
    GlobalIdService.GetNewID env identifier w
      = ((g.LastID + g.Step) % 2 ^ 64,
          { rows := rows ++ [{ g with LastID := (g.LastID + g.Step) % 2 ^ 64 }]
            storeOps := w.storeOps + 1
            clockReads := w.clockReads }) := by
  unfold GlobalIdService.GetNewID
  simp only [hup, hrows, allocate_append rows g identifier h hg]
  rfl

/-! ## One round of the pattern loop -/

theorem renderPattern_string (env : Env) (tableCode fieldCode : String) (entityMap : FieldMap)
    (st : GenState) (pattern : SequencePattern) (value : String)
    (ht : pattern.type = "string") (hv : pattern.Options "value" = some (.str value)) :
    renderPattern env tableCode fieldCode entityMap st pattern
      = .next { st with result := st.result ++ value } := by
  unfold renderPattern
  simp only [ht, hv, if_true]

theorem renderPattern_date (env : Env) (tableCode fieldCode : String) (entityMap : FieldMap)
    (st : GenState) (pattern : SequencePattern) (format : String)
    (ht : pattern.type = "date") (hf : pattern.Options "format" = some (.str format)) :
    renderPattern env tableCode fieldCode entityMap st pattern
      = .next { st with
          result := st.result ++ formatDate (env.clock st.world.clockReads) format
          world := { st.world with clockReads := st.world.clockReads + 1 } } := by
  unfold renderPattern
  have h₁ : ¬ ("date" = "string") := by decide
  simp only [ht, hf, h₁, if_true, if_false]
  rfl

theorem renderPattern_integer (env : Env) (tableCode fieldCode : String) (entityMap : FieldMap)
    (st : GenState) (pattern : SequencePattern) (ht : pattern.type = "integer") :
    renderPattern env tableCode fieldCode entityMap st pattern
      = (match ensureGlobalIdExists env
            (buildIdentifier tableCode fieldCode
              (getCycleValue (env.clock st.world.clockReads) (cycleOption pattern.Options)))
            (startOption st.start pattern.Options) tableCode fieldCode
            { st.world with clockReads := st.world.clockReads + 1 } with
        | (some err, w₂) => .fail ("failed to ensure global_id exists: " ++ err) w₂
        | (none, w₂) =>
          .next
            { result := st.result ++ sprintfPad (digitsOption pattern.Options)
                (GlobalIdService.GetNewID env
                  (buildIdentifier tableCode fieldCode
                    (getCycleValue (env.clock st.world.clockReads) (cycleOption pattern.Options)))
                  w₂).1
              cycle := cycleOption pattern.Options
              start := startOption st.start pattern.Options
              world := (GlobalIdService.GetNewID env
                  (buildIdentifier tableCode fieldCode
                    (getCycleValue (env.clock st.world.clockReads) (cycleOption pattern.Options)))
                  w₂).2 }) := by
  unfold renderPattern
  have h₁ : ¬ ("integer" = "string") := by decide
  have h₂ : ¬ ("integer" = "date") := by decide
  have h₃ : ¬ ("integer" = "field") := by decide
  simp only [ht, h₁, h₂, h₃, if_true, if_false]
  rfl

/-! ## The integer segment on an available store -/

theorem integer_round_fresh (env : Env) (tableCode fieldCode : String) (entityMap : FieldMap)
    (st : GenState) (pattern : SequencePattern) (identifier : String)
    (ht : pattern.type = "integer") (hup : env.storeUp)
    (hid : identifier = buildIdentifier tableCode fieldCode
      (getCycleValue (env.clock st.world.clockReads) (cycleOption pattern.Options)))
    (hf : st.world.fresh identifier) :
    renderPattern env tableCode fieldCode entityMap st pattern
      = .next
          { result := st.result ++ sprintfPad (digitsOption pattern.Options)
              ((toUint (startOption st.start pattern.Options - 1) + 1) % 2 ^ 64)
            cycle := cycleOption pattern.Options
            start := startOption st.start pattern.Options
            world :=
              { rows := st.world.rows ++
                  [{ newCounter identifier (startOption st.start pattern.Options)
                        tableCode fieldCode with
                      LastID := (toUint (startOption st.start pattern.Options - 1) + 1) % 2 ^ 64 }]
                storeOps := st.world.storeOps + 3
                clockReads := st.world.clockReads + 1 } } := by
  rw [renderPattern_integer env tableCode fieldCode entityMap st pattern ht, ← hid]
  have hf' : ({ st.world with clockReads := st.world.clockReads + 1 } : World).fresh identifier :=
    hf
  rw [ensure_fresh env identifier _ tableCode fieldCode _ (hup _) (hup _) hf']
  simp only
  rw [getNewID_append env identifier _ st.world.rows
    (newCounter identifier (startOption st.start pattern.Options) tableCode fieldCode)
    (hup _) rfl hf rfl]
  rfl

theorem integer_round_last (env : Env) (tableCode fieldCode : String) (entityMap : FieldMap)
    (st : GenState) (pattern : SequencePattern) (identifier : String)
    (rows : List GlobalId) (g : GlobalId)
    (ht : pattern.type = "integer") (hup : env.storeUp)
    (hid : identifier = buildIdentifier tableCode fieldCode
      (getCycleValue (env.clock st.world.clockReads) (cycleOption pattern.Options)))
    (hrows : st.world.rows = rows ++ [g]) (hf : ∀ r ∈ rows, r.Identifier ≠ identifier)
    (hg : g.Identifier = identifier) :
    renderPattern env tableCode fieldCode entityMap st pattern
      = .next
          { result := st.result ++ sprintfPad (digitsOption pattern.Options)
              ((g.LastID + g.Step) % 2 ^ 64)
            cycle := cycleOption pattern.Options
            start := startOption st.start pattern.Options
            world :=
              { rows := rows ++ [{ g with LastID := (g.LastID + g.Step) % 2 ^ 64 }]
                storeOps := st.world.storeOps + 2
                clockReads := st.world.clockReads + 1 } } := by
  rw [renderPattern_integer env tableCode fieldCode entityMap st pattern ht, ← hid]
  have hex : ∃ r ∈ ({ st.world with clockReads := st.world.clockReads + 1 } : World).rows,
      r.Identifier = identifier := ⟨g, by simp [hrows], hg⟩
  rw [ensure_existing env identifier _ tableCode fieldCode _ (hup _) hex]
  simp only
  rw [getNewID_append env identifier
    { rows := st.world.rows, storeOps := st.world.storeOps + 1,
      clockReads := st.world.clockReads + 1 } rows g (hup _) hrows hf hg]

/-! ## The invoice scenario -/

theorem formatDate_march (t : Instant) (hy : t.year = 2024) (hm : t.month = 3) :
    formatDate t "YYYYMM" = "202403" := by
  have h : formatDate t "YYYYMM"
      = String.mk (appendInt t.year 4 ++ (appendInt t.month 2 ++ [])) := rfl
  rw [h, hy, hm]
  decide

theorem monthly_key_march (t : Instant) (hy : t.year = 2024) (hm : t.month = 3) :
    getCycleValue t "monthly" = "2024-03" := by
  have h : getCycleValue t "monthly" = t.Format "2006-01" := rfl
  rw [h, format_monthly, hy, hm]
  decide

/-! ## The orchestrator: its loops -/

theorem set_same (m : FieldMap) (k : String) (v : Value) : m.set k v k = some v := by
  simp [FieldMap.set]

theorem set_other (m : FieldMap) (k k' : String) (v : Value) (h : k' ≠ k) :
    m.set k v k' = m k' := by
  simp [FieldMap.set, h]

theorem restoreFields_get (existing : FieldMap) (fields : List TableField) (m : FieldMap)
    (k : String) (v : Value) (hv : existing k = some v)
    (h : m k = some v ∨ ∃ f ∈ fields, f.Code = k) :
    restoreFields existing fields m k = some v := by
  induction fields generalizing m with
  | nil =>
    rcases h with h | ⟨f, hf, _⟩
    · exact h
    · cases hf
  | cons g rest ih =>
    unfold restoreFields
    by_cases hk : g.Code = k
    · rw [hk, hv]
      exact ih _ (Or.inl (set_same m k v))
    · cases hg : existing g.Code with
      | none =>
        refine ih m ?_
        rcases h with h | ⟨f, hf, hfk⟩
        · exact Or.inl h
        · rcases List.mem_cons.mp hf with hfg | hfr
          · exact absurd (hfg ▸ hfk) hk
          · exact Or.inr ⟨f, hfr, hfk⟩
      | some ev =>
        refine ih _ ?_
        rcases h with h | ⟨f, hf, hfk⟩
        · exact Or.inl (by rw [set_other m g.Code k ev (fun e => hk e.symm)]; exact h)
        · rcases List.mem_cons.mp hf with hfg | hfr
          · exact absurd (hfg ▸ hfk) hk
          · exact Or.inr ⟨f, hfr, hfk⟩

theorem present_of_parse (env : Env) (v : Value) (n : Nat)
    (h : ParseUint (sprintV env v) = some n) : present (some v) = true := by
  cases v with
  | nil =>
    have hn : ParseUint "<nil>" = none := by decide
    have hv : sprintV env Value.nil = "<nil>" := rfl
    rw [hv, hn] at h
    exact absurd h (by simp)
  | str s =>
    by_cases hs : s = ""
    · subst hs
      have hn : ParseUint "" = none := by decide
      have hv : sprintV env (Value.str "") = "" := rfl
      rw [hv, hn] at h
      exact absurd h (by simp)
    · simp [present, hs]
  | int i => rfl
  | uint u => rfl
  | float f => rfl
  | bool b => rfl
  | other t x => rfl

theorem requestID_of_parse (env : Env) (entityMap : FieldMap) (entityID : Value) (idUint : Nat)
    (hid : entityMap "entity_id" = some entityID)
    (hparse : ParseUint (sprintV env entityID) = some idUint) (hpos : 0 < idUint) :
    requestID env entityMap = some idUint := by
  unfold requestID
  rw [hid, present_of_parse env entityID idUint hparse]
  simp [hparse, hpos]

theorem present_set_other (m : FieldMap) (k k' : String) (v : Value)
    (hk : present (m k) = true) (hk' : present (m k') = false) : m.set k' v k = m k := by
  apply set_other
  intro e
  rw [e, hk'] at hk
  exact absurd hk (by decide)

theorem generateField_present (env : Env) (tableCode : String) (field : TableField)
    (m : FieldMap) (w : World) (h : present (m field.Code) = true) :
    generateField env tableCode field m w = .ok (m, w) := by
  unfold generateField
  simp only [h, if_true]

/-- One round of the generation loop writes at most the field's own key, and only when the
field holds no value: keys that hold a value keep it. -/
theorem generateField_keeps (env : Env) (tableCode : String) (field : TableField)
    (m m₁ : FieldMap) (w w₁ : World)
    (h : generateField env tableCode field m w = .ok (m₁, w₁)) (k : String)
    (hk : present (m k) = true) : m₁ k = m k := by
  unfold generateField at h
  split at h
  · injection h with h
    rw [← (Prod.mk.inj h).1]
  · next hg =>
    have hg' : present (m field.Code) = false := by simpa using hg
    split at h
    · split at h
      · split at h
        · exact absurd h (by simp)
        · injection h with h
          rw [← (Prod.mk.inj h).1]
          exact present_set_other m k field.Code _ hk hg'
      · injection h with h
        rw [← (Prod.mk.inj h).1]
    · injection h with h
      rw [← (Prod.mk.inj h).1]

/-- A field that holds a value when the generation loop starts keeps it. -/
theorem generateFields_keeps (env : Env) (tableCode : String) (fields : List TableField)
    (m : FieldMap) (w : World) (k : String) (hk : present (m k) = true) :
    (generateFields env tableCode fields m w).2.1 k = m k := by
  induction fields generalizing m w with
  | nil => rfl
  | cons g rest ih =>
    rw [generateFields]
    cases hg : generateField env tableCode g m w with
    | error e => rfl
    | ok r =>
      obtain ⟨m₁, w₁⟩ := r
      have hkeep := generateField_keeps env tableCode g m m₁ w w₁ hg k hk
      simp only
      rw [ih m₁ w₁ (by rw [hkeep]; exact hk), hkeep]

/-- Fields that hold a value contribute nothing to the generation loop: it runs as on the
list without them. -/
theorem generateFields_filter (env : Env) (tableCode : String) (fields : List TableField)
    (m₀ m : FieldMap) (w : World) (hext : ∀ k, present (m₀ k) = true → present (m k) = true) :
    generateFields env tableCode (fields.filter fun f => !present (m₀ f.Code)) m w
      = generateFields env tableCode fields m w := by
  induction fields generalizing m w with
  | nil => rfl
  | cons g rest ih =>
    by_cases hg₀ : present (m₀ g.Code) = true
    · have hfil : (g :: rest).filter (fun f => !present (m₀ f.Code))
          = rest.filter (fun f => !present (m₀ f.Code)) := by
        simp [List.filter_cons, hg₀]
      rw [hfil, ih m w hext]
      conv_rhs => rw [generateFields]
      rw [generateField_present env tableCode g m w (hext _ hg₀)]
    · have hfil : (g :: rest).filter (fun f => !present (m₀ f.Code))
          = g :: rest.filter (fun f => !present (m₀ f.Code)) := by
        simp [List.filter_cons, hg₀]
      rw [hfil]
      conv_lhs => rw [generateFields]
      conv_rhs => rw [generateFields]
      cases hg : generateField env tableCode g m w with
      | error e => rfl
      | ok r =>
        obtain ⟨m₁, w₁⟩ := r
        simp only
        refine ih m₁ w₁ ?_
        intro k hk
        rw [generateField_keeps env tableCode g m m₁ w w₁ hg k (hext k hk)]
        exact hext k hk

theorem generateFields_all_present (env : Env) (tableCode : String) (fields : List TableField)
    (m : FieldMap) (w : World) (h : ∀ f ∈ fields, present (m f.Code) = true) :
    generateFields env tableCode fields m w = (none, m, w) := by
  induction fields with
  | nil => rfl
  | cons g rest ih =>
    rw [generateFields, generateField_present env tableCode g m w (h g (List.mem_cons_self _ _))]
    exact ih (fun f hf => h f (List.mem_cons_of_mem _ hf))

/-- The generation loop over a concatenation: the second part runs from where the first part
ended, unless the first part ended in an error. -/
theorem generateFields_append (env : Env) (tableCode : String) (pre rest : List TableField)
    (m : FieldMap) (w : World) :
    generateFields env tableCode (pre ++ rest) m w
      = (match generateFields env tableCode pre m w with
        | (none, m₁, w₁) => generateFields env tableCode rest m₁ w₁
        | (some err, m₁, w₁) => (some err, m₁, w₁)) := by
  induction pre generalizing m w with
  | nil => rfl
  | cons g pre ih =>
    have hcons : (g :: pre) ++ rest = g :: (pre ++ rest) := rfl
    rw [hcons]
    conv_lhs => rw [generateFields]
    conv_rhs => rw [generateFields]
    cases hg : generateField env tableCode g m w with
    | error e => rfl
    | ok r =>
      obtain ⟨m₁, w₁⟩ := r
      exact ih m₁ w₁

/-! ## The loop of `GenerateCode` with its state -/

theorem renderPatterns_eq_run (env : Env) (tableCode fieldCode : String) (entityMap : FieldMap)
    (patterns : List SequencePattern) (st : GenState) :
    renderPatterns env tableCode fieldCode entityMap patterns st
      = (match runPatterns env tableCode fieldCode entityMap patterns st with
        | .next st' => (.ok st'.result, st'.world)
        | .fail err w => (.error err, w)) := by
  induction patterns generalizing st with
  | nil => rfl
  | cons p rest ih =>
    rw [renderPatterns, runPatterns]
    cases hp : renderPattern env tableCode fieldCode entityMap st p with
    | fail err w => rfl
    | next st' => exact ih st'

theorem runPatterns_append (env : Env) (tableCode fieldCode : String) (entityMap : FieldMap)
    (pre rest : List SequencePattern) (st : GenState) :
    runPatterns env tableCode fieldCode entityMap (pre ++ rest) st
      = (match runPatterns env tableCode fieldCode entityMap pre st with
        | .next st' => runPatterns env tableCode fieldCode entityMap rest st'
        | .fail err w => .fail err w) := by
  induction pre generalizing st with
  | nil => rfl
  | cons p pre ih =>
    have hcons : (p :: pre) ++ rest = p :: (pre ++ rest) := rfl
    rw [hcons]
    conv_lhs => rw [runPatterns]
    conv_rhs => rw [runPatterns]
    cases hp : renderPattern env tableCode fieldCode entityMap st p with
    | fail err w => rfl
    | next st' => exact ih st'

/-! ## Upper-casing -/

theorem ToUpper_fixed (env : Env) (l : List Char)
    (h : ∀ c ∈ l, c.toNat < 97) : ToUpper env (String.mk l) = String.mk l := by
  unfold ToUpper
  have hall : l.all (fun c => decide (c.toNat < 128)) = true := by
    rw [List.all_eq_true]
    intro c hc
    have := h c hc
    simp only [decide_eq_true_eq]
    omega
  have hmap : l.map asciiUpper = l := by
    conv_rhs => rw [← List.map_id l]
    apply List.map_congr_left
    intro c hc
    have := h c hc
    unfold asciiUpper
    have hn : ¬ (97 ≤ c.toNat ∧ c.toNat ≤ 122) := by omega
    simp only [hn, if_false, id]
  simp only [hall, if_true, hmap]

theorem ToUpper_empty (env : Env) : ToUpper env "" = "" := by
  have h := ToUpper_fixed env [] (fun c hc => absurd hc (List.not_mem_nil c))
  exact h

theorem ToUpper_decimal (env : Env) (n : Nat) :
    ToUpper env (String.mk (decimal n)) = String.mk (decimal n) := by
  apply ToUpper_fixed
  intro c hc
  have := decimal_digits n c hc
  omega

theorem ToUpper_fmtInt (env : Env) (i : Int) :
    ToUpper env (String.mk (fmtInt i)) = String.mk (fmtInt i) := by
  apply ToUpper_fixed
  intro c hc
  unfold fmtInt at hc
  split at hc
  · rcases List.mem_cons.mp hc with hc | hc
    · rw [hc]; decide
    · have := decimal_digits _ c hc
      omega
  · have := decimal_digits _ c hc
    omega

/-! ## The field segment -/

theorem renderPattern_field (env : Env) (tableCode fieldCode : String) (entityMap : FieldMap)
    (st : GenState) (pattern : SequencePattern) (f : String)
    (ht : pattern.type = "field") (hf : pattern.Options "fieldCode" = some (.str f)) :
    renderPattern env tableCode fieldCode entityMap st pattern
      = (match entityMap f with
        | some .nil | none =>
          .fail ("field " ++ f ++ " is required for autocode but not provided or is nil")
            st.world
        | some (.str v) => .next { st with result := st.result ++ ToUpper env v }
        | some (.int v) =>
          .next { st with result := st.result ++ ToUpper env (String.mk (fmtInt v)) }
        | some (.uint v) =>
          .next { st with result := st.result ++ ToUpper env (String.mk (decimal v)) }
        | some (.float v) =>
          .next { st with result := st.result ++ ToUpper env (String.mk (fmtFloat0 v)) }
        | some (.bool _) =>
          .fail ("field " ++ f ++ " has unsupported type for autocode: bool") st.world
        | some (.other typeName _) =>
          .fail ("field " ++ f ++ " has unsupported type for autocode: " ++ typeName)
            st.world) := by
  unfold renderPattern
  have h₁ : ¬ ("field" = "string") := by decide
  have h₂ : ¬ ("field" = "date") := by decide
  simp only [ht, hf, h₁, h₂, if_true, if_false]

/-- One round of the generation loop changes the field map at most at the key of the autocode
field it renders. -/
theorem generateField_other_keys (env : Env) (tableCode : String) (field : TableField)
    (m m₁ : FieldMap) (w w₁ : World)
    (h : generateField env tableCode field m w = .ok (m₁, w₁)) (k : String)
    (hk : k ≠ field.Code) : m₁ k = m k := by
  unfold generateField at h
  split at h
  · injection h with h
    rw [← (Prod.mk.inj h).1]
  · split at h
    · split at h
      · split at h
        · exact absurd h (by simp)
        · injection h with h
          rw [← (Prod.mk.inj h).1]
          exact set_other m field.Code k _ hk
      · injection h with h
        rw [← (Prod.mk.inj h).1]
    · injection h with h
      rw [← (Prod.mk.inj h).1]

/-! ## Upper-casing against the letter rule -/

theorem ofNat_toNat_small (m : Nat) (h : m ≤ 127) : (Char.ofNat m).toNat = m := by
  interval_cases m <;> rfl

theorem asciiUpper_letter (c : Char) (h : 97 ≤ c.toNat ∧ c.toNat ≤ 122) :
    (asciiUpper c).toNat = c.toNat - 32 := by
  unfold asciiUpper
  simp only [h, and_self, if_true]
  exact ofNat_toNat_small _ (by omega)

theorem asciiUpper_other (c : Char) (h : ¬ (97 ≤ c.toNat ∧ c.toNat ≤ 122)) :
    asciiUpper c = c := by
  unfold asciiUpper
  simp only [h, if_false]

theorem unicodeToUpper_spec (env : Env) (c : Char) : UpperOf env c (unicodeToUpper env c) := by
  unfold UpperOf unicodeToUpper
  refine ⟨?_, ?_, ?_⟩
  · intro h
    have h' : c.toNat ≤ 127 := by omega
    simp only [h', if_true]
    exact asciiUpper_letter c h
  · intro h' h
    simp only [h', if_true]
    exact asciiUpper_other c h
  · intro h
    have h' : ¬ c.toNat ≤ 127 := by omega
    simp only [h', if_false]

/-- Both branches of `strings.ToUpper` map the text rune by rune with `unicode.ToUpper`. -/
theorem ToUpper_eq_map (env : Env) (s : String) :
    ToUpper env s = String.mk (s.data.map (unicodeToUpper env)) := by
  unfold ToUpper
  split
  · next hall =>
    congr 1
    apply List.map_congr_left
    intro c hc
    have := List.all_eq_true.mp hall c hc
    have hc' : c.toNat ≤ 127 := by
      have : c.toNat < 128 := by simpa using this
      omega
    unfold unicodeToUpper
    simp only [hc', if_true]
  · rfl

theorem forall₂_map_of_forall {α β : Type} (R : α → β → Prop) (g : α → β)
    (h : ∀ a, R a (g a)) (l : List α) : List.Forall₂ R l (l.map g) := by
  induction l with
  | nil => exact List.Forall₂.nil
  | cons a l ih => exact List.Forall₂.cons (h a) ih

theorem ToUpper_spec (env : Env) (s : String) :
    List.Forall₂ (UpperOf env) s.data (ToUpper env s).data := by
  rw [ToUpper_eq_map]
  exact forall₂_map_of_forall _ _ (unicodeToUpper_spec env) s.data

/-! ## The keys the orchestrator writes -/

theorem restoreFields_other (existing : FieldMap) (fields : List TableField) (m : FieldMap)
    (k : String) (hk : ∀ field ∈ fields, field.Code ≠ k) :
    restoreFields existing fields m k = m k := by
  induction fields generalizing m with
  | nil => rfl
  | cons g rest ih =>
    have hg : k ≠ g.Code := fun e => hk g (List.mem_cons_self _ _) e.symm
    have hrest : ∀ field ∈ rest, field.Code ≠ k :=
      fun field hf => hk field (List.mem_cons_of_mem _ hf)
    rw [restoreFields]
    cases existing g.Code with
    | none => exact ih m hrest
    | some existingVal =>
      simp only
      rw [ih _ hrest]
      exact set_other m g.Code k _ hg

theorem generateFields_other (env : Env) (tableCode : String) (fields : List TableField)
    (m : FieldMap) (w : World) (k : String) (hk : ∀ field ∈ fields, field.Code ≠ k) :
    (generateFields env tableCode fields m w).2.1 k = m k := by
  induction fields generalizing m w with
  | nil => rfl
  | cons g rest ih =>
    have hg : k ≠ g.Code := fun e => hk g (List.mem_cons_self _ _) e.symm
    have hrest : ∀ field ∈ rest, field.Code ≠ k :=
      fun field hf => hk field (List.mem_cons_of_mem _ hf)
    rw [generateFields]
    cases hgen : generateField env tableCode g m w with
    | error e => rfl
    | ok r =>
      obtain ⟨m₁, w₁⟩ := r
      simp only
      rw [ih m₁ w₁ hrest]
      exact generateField_other_keys env tableCode g m m₁ w w₁ hgen k hg

/-- A key that is not the code of an autocode field is not written by the orchestrator, on any
path. -/
theorem orchestrator_other_keys (env : Env) (tableCode : String) (entityMap : FieldMap)
    (tableFieldService : TableFieldService) (entityRepository : EntityRepository) (w : World)
    (k : String)
    (hk : ∀ autocodeFields,
      tableFieldService.Find "code,options" (fieldWhere tableCode) = .ok autocodeFields →
      ∀ field ∈ autocodeFields, field.Code ≠ k) :
    (GenerateOrRestoreAutocodes env tableCode entityMap tableFieldService entityRepository
      w).2.1 k = entityMap k := by
  unfold GenerateOrRestoreAutocodes
  cases hfind : tableFieldService.Find "code,options" (fieldWhere tableCode) with
  | error e => rfl
  | ok fields =>
    have hk' := hk fields hfind
    simp only
    split
    · split
      · split
        · exact restoreFields_other _ fields entityMap k hk'
        · rfl
      · rfl
    · split
      · rfl
      · exact generateFields_other env tableCode fields entityMap w k hk'

/-! ## C1: restoring autocode fields on an update -/

/-- C1: on an update request (`operation` printing as `Update` or `BatchUpdate`) whose
`entity_id` parses as a positive integer and whose prior row the repository finds, the call
returns no error, leaves the world (counter rows, store operations, clock readings) untouched,
and every autocode field the lookup returned and the prior row contains holds the prior row's
value afterwards, whatever the caller supplied. -/
theorem restore_on_update (env : Env) (tableCode : String) (entityMap : FieldMap)
    (tableFieldService : TableFieldService) (entityRepository : EntityRepository) (w : World)
    (operation entityID : Value) (idUint : Nat) (existing : FieldMap)
    (hop : entityMap "operation" = some operation)
    (hupd : sprintV env operation = "Update" ∨ sprintV env operation = "BatchUpdate")
    (hid : entityMap "entity_id" = some entityID)
    (hparse : ParseUint (sprintV env entityID) = some idUint) (hpos : 0 < idUint)
    (hrow : entityRepository.FindOne tableCode idUint = .row existing) :
    (GenerateOrRestoreAutocodes env tableCode entityMap tableFieldService entityRepository w).1
      = none
    ∧ (GenerateOrRestoreAutocodes env tableCode entityMap tableFieldService entityRepository
        w).2.2 = w
    ∧ ∀ autocodeFields,
        tableFieldService.Find "code,options" (fieldWhere tableCode) = .ok autocodeFields →
        ∀ field ∈ autocodeFields, ∀ v, existing field.Code = some v →
          (GenerateOrRestoreAutocodes env tableCode entityMap tableFieldService
            entityRepository w).2.1 field.Code = some v := by
  have hisUpdate : isUpdate env entityMap = true := by
    unfold isUpdate
    rw [hop]
    simpa using hupd
  have hreq := requestID_of_parse env entityMap entityID idUint hid hparse hpos
  unfold GenerateOrRestoreAutocodes
  cases hfind : tableFieldService.Find "code,options" (fieldWhere tableCode) with
  | error e =>
    refine ⟨rfl, rfl, ?_⟩
    intro autocodeFields h
    exact absurd h (by simp)
  | ok fields =>
    simp only [hisUpdate, if_true, hreq, hrow]
    refine ⟨trivial, trivial, ?_⟩
    intro autocodeFields h field hf v hv
    injection h with h
    subst h
    exact restoreFields_get existing fields entityMap field.Code v hv (Or.inr ⟨field, hf, rfl⟩)

/-- C1 at the scenario of the specification: the prior row holds `code = INV-202403-0001`, the
caller sends `code = FORGED`. -/
theorem restore_on_update_witness :
    updateRequest "operation" = some (.str "Update")
    ∧ ParseUint (sprintV quietEnv (.uint 7)) = some 7
    ∧ (GenerateOrRestoreAutocodes quietEnv "T" updateRequest codeLookup priorRepository
        emptyWorld).2.1 "code" = some (.str "INV-202403-0001")
    ∧ (GenerateOrRestoreAutocodes quietEnv "T" updateRequest codeLookup priorRepository
        emptyWorld).2.2 = emptyWorld :=
  ⟨by decide, by decide,
    (restore_on_update quietEnv "T" updateRequest codeLookup priorRepository emptyWorld
      (.str "Update") (.uint 7) 7 priorRow (by decide) (Or.inl (by decide)) (by decide)
      (by decide) (by decide) rfl).2.2 _ rfl ⟨"code", some ⟨invoicePatterns⟩⟩
      (List.mem_singleton.mpr rfl) (.str "INV-202403-0001") (by decide),
    (restore_on_update quietEnv "T" updateRequest codeLookup priorRepository emptyWorld
      (.str "Update") (.uint 7) 7 priorRow (by decide) (Or.inl (by decide)) (by decide)
      (by decide) (by decide) rfl).2.1⟩

/-! ## C3: caller-supplied values on the create path -/

/-- C3: on a request that is not an update (whether or not `entity_id` resolves to a row), a
key that holds a non-nil, non-empty value keeps it; the autocode fields that hold a value
contribute nothing, the call ends with the same error, field map and world as for the lookup
result without them, so no counter is allocated for them; and when every autocode field holds
a value, the call returns no error and leaves field map and world as they were. -/
theorem supplied_fields_untouched (env : Env) (tableCode : String) (entityMap : FieldMap)
    (tableFieldService : TableFieldService) (entityRepository : EntityRepository) (w : World)
    (hcreate : isUpdate env entityMap = false) :
    (∀ k, present (entityMap k) = true →
      (GenerateOrRestoreAutocodes env tableCode entityMap tableFieldService entityRepository
        w).2.1 k = entityMap k)
    ∧ (∀ autocodeFields,
        tableFieldService.Find "code,options" (fieldWhere tableCode) = .ok autocodeFields →
        GenerateOrRestoreAutocodes env tableCode entityMap
            ⟨fun _ _ => .ok (autocodeFields.filter fun f => !present (entityMap f.Code))⟩
            entityRepository w
          = GenerateOrRestoreAutocodes env tableCode entityMap tableFieldService
              entityRepository w)
    ∧ (∀ autocodeFields,
        tableFieldService.Find "code,options" (fieldWhere tableCode) = .ok autocodeFields →
        (∀ field ∈ autocodeFields, present (entityMap field.Code) = true) →
        GenerateOrRestoreAutocodes env tableCode entityMap tableFieldService entityRepository w
          = (none, entityMap, w)) := by
  refine ⟨?_, ?_, ?_⟩
  · intro k hk
    unfold GenerateOrRestoreAutocodes
    cases hfind : tableFieldService.Find "code,options" (fieldWhere tableCode) with
    | error e => rfl
    | ok fields =>
      simp only [hcreate, Bool.false_eq_true, if_false]
      split
      · rfl
      · exact generateFields_keeps env tableCode fields entityMap w k hk
  · intro autocodeFields hfind
    unfold GenerateOrRestoreAutocodes
    simp only [hfind, hcreate, Bool.false_eq_true, if_false]
    split
    · rfl
    · exact generateFields_filter env tableCode autocodeFields entityMap entityMap w
        (fun _ h => h)
  · intro autocodeFields hfind hall
    unfold GenerateOrRestoreAutocodes
    simp only [hfind, hcreate, Bool.false_eq_true, if_false]
    split
    · rfl
    · exact generateFields_all_present env tableCode autocodeFields entityMap w hall

/-- C3 at a creation that supplies `code = MANUAL-1`: the value stays and the world is
untouched. -/
theorem supplied_fields_untouched_witness :
    isUpdate quietEnv createRequest = false
    ∧ (GenerateOrRestoreAutocodes quietEnv "T" createRequest codeLookup priorRepository
        emptyWorld).2.1 "code" = some (.str "MANUAL-1")
    ∧ GenerateOrRestoreAutocodes quietEnv "T" createRequest codeLookup priorRepository
        emptyWorld = (none, createRequest, emptyWorld) :=
  ⟨by decide,
    (supplied_fields_untouched quietEnv "T" createRequest codeLookup priorRepository emptyWorld
      (by decide)).1 "code" (by decide),
    (supplied_fields_untouched quietEnv "T" createRequest codeLookup priorRepository emptyWorld
      (by decide)).2.2 _ rfl (by decide)⟩

/-! ## C4: a rendering error ends the generation -/

/-- C4: on the generate path (not an update, `entity_id` not resolving to a row), let the
autocode fields be `pre ++ field :: post`, let the loop over `pre` end without error in the
field map `m₁` and the world `w₁`, and let `field` need generation (no value in `m₁`, at least
one pattern). If `GenerateCode` fails for `field`, leaving the world `w₂`, then the call returns
an error and ends in `m₁` and `w₂`, whatever `post` is: no later field is written and nothing
is allocated for it. -/
theorem generation_stops_at_first_error (env : Env) (tableCode : String)
    (entityMap : FieldMap) (tableFieldService : TableFieldService)
    (entityRepository : EntityRepository) (w : World)
    (pre post : List TableField) (field : TableField) (options : FieldOptions)
    (m₁ : FieldMap) (w₁ w₂ : World) (err : String)
    (hfind : tableFieldService.Find "code,options" (fieldWhere tableCode)
      = .ok (pre ++ field :: post))
    (hcreate : isUpdate env entityMap = false)
    (hpath : requestID env entityMap = none
      ∨ ∃ idUint e, requestID env entityMap = some idUint
          ∧ entityRepository.FindOne tableCode idUint = .error e)
    (hpre : generateFields env tableCode pre entityMap w = (none, m₁, w₁))
    (hneeds : present (m₁ field.Code) = false)
    (hopts : field.Options = some options) (hpat : options.Patterns.length > 0)
    (hfail : GenerateCode env tableCode field.Code options.Patterns m₁ w₁ = (.error err, w₂)) :
    GenerateOrRestoreAutocodes env tableCode entityMap tableFieldService entityRepository w
      = (some ("生成自动编码失败: " ++ err), m₁, w₂)
    ∧ ∀ later ∈ post,
        (GenerateOrRestoreAutocodes env tableCode entityMap tableFieldService entityRepository
          w).2.1 later.Code = m₁ later.Code := by
  have hfield : generateField env tableCode field m₁ w₁
      = .error ("生成自动编码失败: " ++ err, w₂) := by
    unfold generateField
    simp only [hneeds, Bool.false_eq_true, if_false, hopts, hpat, if_true, hfail]
  have hloop : generateFields env tableCode (pre ++ field :: post) entityMap w
      = (some ("生成自动编码失败: " ++ err), m₁, w₂) := by
    rw [generateFields_append, hpre]
    simp only
    rw [generateFields, hfield]
  have hcall : GenerateOrRestoreAutocodes env tableCode entityMap tableFieldService
      entityRepository w = (some ("生成自动编码失败: " ++ err), m₁, w₂) := by
    unfold GenerateOrRestoreAutocodes
    simp only [hfind, hcreate, Bool.false_eq_true, if_false]
    rcases hpath with hnone | ⟨idUint, e, hsome, herr⟩
    · simp only [hnone, Bool.false_eq_true, if_false]
      exact hloop
    · simp only [hsome, herr, Bool.false_eq_true, if_false]
      exact hloop
  exact ⟨hcall, fun later _ => by rw [hcall]⟩

/-- C4 at a creation without `dept`: the field `code` needs `dept` and fails, the field
`serial` after it is not generated and the world is untouched. -/
theorem generation_stops_at_first_error_witness :
    isUpdate quietEnv bareRequest = false
    ∧ requestID quietEnv bareRequest = none
    ∧ GenerateCode quietEnv "T" "code"
        [⟨"field", FieldMap.ofList [("fieldCode", .str "dept")]⟩] bareRequest emptyWorld
      = (.error "field dept is required for autocode but not provided or is nil", emptyWorld)
    ∧ GenerateOrRestoreAutocodes quietEnv "T" bareRequest ⟨fun _ _ => .ok deptFields⟩
        priorRepository emptyWorld
      = (some "生成自动编码失败: field dept is required for autocode but not provided or is nil",
          bareRequest, emptyWorld) :=
  ⟨by decide, by decide, by decide,
    (generation_stops_at_first_error quietEnv "T" bareRequest ⟨fun _ _ => .ok deptFields⟩
      priorRepository emptyWorld [] [⟨"serial", some ⟨invoicePatterns⟩⟩]
      ⟨"code", some ⟨[⟨"field", FieldMap.ofList [("fieldCode", .str "dept")]⟩]⟩⟩
      ⟨[⟨"field", FieldMap.ofList [("fieldCode", .str "dept")]⟩]⟩
      bareRequest emptyWorld emptyWorld
      "field dept is required for autocode but not provided or is nil"
      rfl (by decide) (Or.inl (by decide)) rfl (by decide) rfl (by decide) (by decide)).1⟩

/-! ## C2: the invoice scenario -/

/-- C2, as stated, fails: the patterns hold no hyphen between the date and the sequence number,
so in March 2024 on a fresh store the code is `INV-2024030001`, not `INV-202403-0001`, and the
next one is `INV-2024030002`, not `INV-202403-0002`. -/
theorem invoice_code_has_no_second_hyphen :
    (GenerateCode quietEnv "T" "F" invoicePatterns FieldMap.empty emptyWorld).1
      ≠ .ok "INV-202403-0001"
    ∧ (GenerateCode quietEnv "T" "F" invoicePatterns FieldMap.empty emptyWorld).1
      = .ok "INV-2024030001"
    ∧ (GenerateCode quietEnv "T" "F" invoicePatterns FieldMap.empty
        (GenerateCode quietEnv "T" "F" invoicePatterns FieldMap.empty emptyWorld).2).1
      ≠ .ok "INV-202403-0002" := by
  decide

/-- C2, amended: with every clock reading in March 2024, a store that is available, holds no
counter for the identifier and allocates by adding `Step` to `LastID`, `GenerateCode` on the
patterns [string `INV-`, date `YYYYMM`, integer (monthly, 4 digits, start 1)] returns
`INV-2024030001`, and the next call returns `INV-2024030002`. -/
theorem invoice_scenario (env : Env) (tableCode fieldCode : String) (entityMap : FieldMap)
    (w : World) (hclock : ∀ k, (env.clock k).year = 2024 ∧ (env.clock k).month = 3)
    (hup : env.storeUp) (hf : w.fresh (buildIdentifier tableCode fieldCode "2024-03")) :
    (GenerateCode env tableCode fieldCode invoicePatterns entityMap w).1 = .ok "INV-2024030001"
    ∧ (GenerateCode env tableCode fieldCode invoicePatterns entityMap
        (GenerateCode env tableCode fieldCode invoicePatterns entityMap w).2).1
      = .ok "INV-2024030002" := by
  have hstart : ∀ s : Int, startOption s (FieldMap.ofList
      [("cycle", .str "monthly"), ("digits", .float (F64.ofNat 4)),
        ("start", .float (F64.ofNat 1))]) = 1 := fun _ => rfl
  have hcycle : cycleOption (FieldMap.ofList
      [("cycle", .str "monthly"), ("digits", .float (F64.ofNat 4)),
        ("start", .float (F64.ofNat 1))]) = "monthly" := by decide
  have hdigits : digitsOption (FieldMap.ofList
      [("cycle", .str "monthly"), ("digits", .float (F64.ofNat 4)),
        ("start", .float (F64.ofNat 1))]) = 4 := by decide
  have hkey : ∀ k, getCycleValue (env.clock k) "monthly" = "2024-03" :=
    fun k => monthly_key_march _ (hclock k).1 (hclock k).2
  have hdate : ∀ k, formatDate (env.clock k) "YYYYMM" = "202403" :=
    fun k => formatDate_march _ (hclock k).1 (hclock k).2
  -- one run of the three rounds, from any world whose counter rows are given
  have run : ∀ (w₀ : World) (st₃ : GenState),
      renderPattern env tableCode fieldCode entityMap
          { result := "" ++ "INV-" ++ "202403", cycle := "", start := 1,
            world := { w₀ with clockReads := w₀.clockReads + 1 } }
          ⟨"integer", FieldMap.ofList
            [("cycle", .str "monthly"), ("digits", .float (F64.ofNat 4)),
              ("start", .float (F64.ofNat 1))]⟩ = .next st₃ →
      GenerateCode env tableCode fieldCode invoicePatterns entityMap w₀
        = (.ok st₃.result, st₃.world) := by
    intro w₀ st₃ h₃
    unfold GenerateCode invoicePatterns
    simp only [renderPatterns]
    rw [renderPattern_string env tableCode fieldCode entityMap _ _ "INV-" rfl (by decide)]
    simp only
    rw [renderPattern_date env tableCode fieldCode entityMap _ _ "YYYYMM" rfl (by decide)]
    simp only [hdate]
    rw [h₃]
  -- first call
  have h₁ := integer_round_fresh env tableCode fieldCode entityMap
    { result := "" ++ "INV-" ++ "202403", cycle := "", start := 1,
      world := { w with clockReads := w.clockReads + 1 } }
    ⟨"integer", FieldMap.ofList
      [("cycle", .str "monthly"), ("digits", .float (F64.ofNat 4)),
        ("start", .float (F64.ofNat 1))]⟩
    (buildIdentifier tableCode fieldCode "2024-03") rfl hup
    (by simp only [hcycle, hkey]) hf
  have g₁ := run w _ h₁
  rw [g₁]
  simp only [hstart, hdigits]
  refine ⟨by decide, ?_⟩
  -- second call
  have h₂ := integer_round_last env tableCode fieldCode entityMap
    { result := "" ++ "INV-" ++ "202403", cycle := "", start := 1,
      world :=
        { rows := w.rows ++
            [{ newCounter (buildIdentifier tableCode fieldCode "2024-03") 1 tableCode fieldCode
                with LastID := (toUint (1 - 1) + 1) % 2 ^ 64 }]
          storeOps := w.storeOps + 3
          clockReads := w.clockReads + 1 + 1 + 1 } }
    ⟨"integer", FieldMap.ofList
      [("cycle", .str "monthly"), ("digits", .float (F64.ofNat 4)),
        ("start", .float (F64.ofNat 1))]⟩
    (buildIdentifier tableCode fieldCode "2024-03") w.rows _ rfl hup
    (by simp only [hcycle, hkey]) rfl hf rfl
  have g₂ := run
    { rows := w.rows ++
        [{ newCounter (buildIdentifier tableCode fieldCode "2024-03") 1 tableCode fieldCode
            with LastID := (toUint (1 - 1) + 1) % 2 ^ 64 }]
      storeOps := w.storeOps + 3
      clockReads := w.clockReads + 1 + 1 } _ h₂
  rw [g₂]
  simp only [hdigits, newCounter]
  decide

/-- C2, amended, with the clock standing at 15 March 2024 and an empty store. -/
theorem invoice_scenario_witness :
    (∀ k, (quietEnv.clock k).year = 2024 ∧ (quietEnv.clock k).month = 3)
    ∧ quietEnv.storeUp
    ∧ emptyWorld.fresh (buildIdentifier "T" "F" "2024-03")
    ∧ (GenerateCode quietEnv "T" "F" invoicePatterns FieldMap.empty emptyWorld).1
      = .ok "INV-2024030001" :=
  ⟨fun _ => ⟨rfl, rfl⟩, fun _ => rfl, fun g hg => absurd hg (List.not_mem_nil g),
    (invoice_scenario quietEnv "T" "F" FieldMap.empty emptyWorld (fun _ => ⟨rfl, rfl⟩)
      (fun _ => rfl) (fun g hg => absurd hg (List.not_mem_nil g))).1⟩

/-! ## C9: the starting value of a later integer segment -/

/-- C9 fails on the code: the variable `start` of `GenerateCode` is declared before the loop
and only overwritten when a segment has a `start` option, so a segment without the option
inherits the value of an earlier segment. With a yearly segment starting at 100 followed by a
monthly segment without `start`, the monthly counter is created to start at 100 and the code
is `00100` `00100`; the monthly segment alone starts at 1 and gives `00001`. -/
theorem start_carries_over :
    GenerateCode quietEnv "T" "F" carryPatterns FieldMap.empty emptyWorld
      = (.ok "0010000100",
          ⟨[⟨"T:F:2024", 100, 1, "自动编码: T.F"⟩, ⟨"T:F:2024-03", 100, 1, "自动编码: T.F"⟩], 6, 2⟩)
    ∧ GenerateCode quietEnv "T" "F" (carryPatterns.drop 1) FieldMap.empty emptyWorld
      = (.ok "00001", ⟨[⟨"T:F:2024-03", 1, 1, "自动编码: T.F"⟩], 3, 1⟩) := by
  decide

/-! ## C5: concurrent callers -/

/-- A caller that runs alone takes the three store steps of the integer segment: its outcome is
the one of `ensureGlobalIdExists` followed by `GetNewID`. -/
theorem runSchedule_alone (env : Env) (identifier : String) (start : Int)
    (tableCode fieldCode : String) (w : World) :
    runSchedule env identifier start tableCode fieldCode [0, 0, 0] [.looking] w
      = (match ensureGlobalIdExists env identifier start tableCode fieldCode w with
        | (some err, w') => ([.failed ("failed to ensure global_id exists: " ++ err)], w')
        | (none, w') =>
          ([.obtained (GlobalIdService.GetNewID env identifier w').1],
            (GlobalIdService.GetNewID env identifier w').2)) := by
  unfold ensureGlobalIdExists
  simp only [runSchedule, List.get?, List.set, Caller.step]
  cases hl : GlobalIdService.List env identifier w with
  | mk res w₁ =>
    cases res with
    | error err => simp only [runSchedule, List.get?, List.set, Caller.step]
    | ok globalIds =>
      by_cases hlen : globalIds.length > 0
      · simp only [hlen, if_true, runSchedule, List.get?, List.set, Caller.step]
      · simp only [hlen, if_false, runSchedule, List.get?, List.set, Caller.step]
        cases hc : GlobalIdService.Create env
            { Identifier := identifier, LastID := toUint (start - 1), Step := 1,
              Description := "自动编码: " ++ tableCode ++ "." ++ fieldCode } w₁ with
        | mk res₂ w₂ =>
          cases res₂ with
          | none => simp only [runSchedule, List.get?, List.set, Caller.step]
          | some err => simp only [runSchedule, List.get?, List.set, Caller.step]

/-- C5 fails on the code: the existence check and the creation are two store operations. When
two callers both look before either creates, the second creation hits the unique key and that
caller gets an error instead of a value: the values obtained are `{1}`, not `{1, 2}`. Run one
after the other, the same two callers obtain 1 and 2. -/
theorem racing_callers :
    runSchedule quietEnv "T:F:" 1 "T" "F" [0, 1, 0, 1, 0, 1] [.looking, .looking] emptyWorld
      = ([.obtained 1, .failed "failed to ensure global_id exists: duplicate identifier"],
          ⟨[⟨"T:F:", 1, 1, "自动编码: T.F"⟩], 5, 0⟩)
    ∧ runSchedule quietEnv "T:F:" 1 "T" "F" [0, 0, 0, 1, 1, 1] [.looking, .looking] emptyWorld
      = ([.obtained 1, .obtained 2], ⟨[⟨"T:F:", 2, 1, "自动编码: T.F"⟩], 5, 0⟩) := by
  decide

/-! ## C7: identifiers -/

/-- C7, as stated, fails: `buildIdentifier` is not injective on arbitrary strings. The tuples
`("a:b", "c", "")` and `("a", "b:c", "")` differ and get the same identifier `a:b:c:`. -/
theorem buildIdentifier_collision :
    ("a:b", "c", "") ≠ (("a", "b:c", "") : String × String × String)
    ∧ buildIdentifier "a:b" "c" "" = buildIdentifier "a" "b:c" ""
    ∧ buildIdentifier "a:b" "c" "" = "a:b:c:" := by
  decide

/-- C7, amended: on table codes and field codes that contain no colon, `buildIdentifier` is
injective: distinct (table, field, cycle key) tuples get distinct identifiers. The cycle key
may be any string. -/
theorem buildIdentifier_injective (tableCode fieldCode cycleKey : String)
    (tableCode' fieldCode' cycleKey' : String)
    (ht : ':' ∉ tableCode.data) (hf : ':' ∉ fieldCode.data)
    (ht' : ':' ∉ tableCode'.data) (hf' : ':' ∉ fieldCode'.data)
    (hne : (tableCode, fieldCode, cycleKey) ≠ (tableCode', fieldCode', cycleKey')) :
    buildIdentifier tableCode fieldCode cycleKey
      ≠ buildIdentifier tableCode' fieldCode' cycleKey' := by
  intro h
  have hd := congrArg String.data h
  rw [buildIdentifier_data, buildIdentifier_data] at hd
  have h₁ := append_sep_inj ':' _ _ _ _ ht ht' hd
  have h₂ := append_sep_inj ':' _ _ _ _ hf hf' h₁.2
  exact hne (by rw [String.ext h₁.1, String.ext h₂.1, String.ext h₂.2])

/-- C7, amended, at two months of one table field. -/
theorem buildIdentifier_injective_witness :
    ':' ∉ "invoice".data ∧ ':' ∉ "code".data
    ∧ ("invoice", "code", "2024-03") ≠ (("invoice", "code", "2024-04") : String × String × String)
    ∧ buildIdentifier "invoice" "code" "2024-03" ≠ buildIdentifier "invoice" "code" "2024-04" :=
  ⟨by decide, by decide, by decide,
    buildIdentifier_injective "invoice" "code" "2024-03" "invoice" "code" "2024-04"
      (by decide) (by decide) (by decide) (by decide) (by decide)⟩

/-! ## C10: zero padding of the sequence number -/

/-- C10, as stated, fails for a `digits` option above the width limit of `fmt`: with
`digits = 1000001` and the allocated value 7 the segment appends `%!(BADWIDTH)7`, which is not
the zero-padded number and does not read back as 7. -/
theorem sprintfPad_bad_width :
    sprintfPad 1000001 7 = "%!(BADWIDTH)7"
    ∧ sprintfPad 1000001 7 ≠ String.mk (zeroPadded 1000001 7)
    ∧ ParseUint (sprintfPad 1000001 7) = none := by
  have h : sprintfPad 1000001 7 = "%!(BADWIDTH)7" := by decide
  refine ⟨h, ?_, ?_⟩
  · intro hp
    have hl := congrArg (fun s : String => s.data.length) hp
    rw [h] at hl
    simp only [zeroPadded_length] at hl
    have h7 : (decimal 7).length = 1 := by decide
    rw [h7] at hl
    have h13 : ("%!(BADWIDTH)7" : String).data.length = 13 := by decide
    rw [h13] at hl
    omega
  · rw [h]
    decide

/-- C10, amended: for every allocated value `n` and every `digits` option `d` with
`0 ≤ d ≤ 1000000` (5 when the option is absent), the text the integer segment appends is the
decimal representation of `n` padded on the left with `0` to length `max d (digits of n)`;
it is never truncated and reads back as `n`. So `d = 5, n = 7` gives `00007` and
`d = 5, n = 123456` gives `123456`. -/
theorem integer_segment_zero_padded (d : Int) (n : Nat) (hd₀ : 0 ≤ d) (hd₁ : d ≤ 1000000) :
    sprintfPad d n = String.mk (zeroPadded d.toNat n)
    ∧ (sprintfPad d n).data.length = max d.toNat (decimal n).length
    ∧ parseDigits (sprintfPad d n).data 0 = some n
    ∧ (n < 2 ^ 64 → ParseUint (sprintfPad d n) = some n)
    ∧ (∀ options : FieldMap, options "digits" = none → digitsOption options = 5)
    ∧ (∀ (env : Env) (tableCode fieldCode : String) (entityMap : FieldMap) (st st' : GenState)
        (pattern : SequencePattern),
        pattern.type = "integer" → digitsOption pattern.Options = d →
        renderPattern env tableCode fieldCode entityMap st pattern = .next st' →
        ∃ identifier w₂,
          (GlobalIdService.GetNewID env identifier w₂).2 = st'.world
          ∧ st'.result = st.result
              ++ String.mk (zeroPadded d.toNat (GlobalIdService.GetNewID env identifier w₂).1))
    ∧ sprintfPad 5 7 = "00007" ∧ sprintfPad 5 123456 = "123456" := by
  have hpad := sprintfPad_of_width d n hd₀ hd₁
  refine ⟨hpad, ?_, ?_, ?_, ?_, ?_, by decide, by decide⟩
  · rw [hpad]
    exact zeroPadded_length _ _
  · rw [hpad]
    exact zeroPadded_parse _ _
  · intro hn
    rw [hpad]
    exact ParseUint_zeroPadded _ _ hn
  · intro options ho
    unfold digitsOption
    rw [ho]
  · intro env tableCode fieldCode entityMap st st' pattern ht hdig hround
    rw [renderPattern_integer env tableCode fieldCode entityMap st pattern ht] at hround
    split at hround
    · exact absurd hround (by simp)
    · next w₂ _ =>
      injection hround with hst
      refine ⟨buildIdentifier tableCode fieldCode
        (getCycleValue (env.clock st.world.clockReads) (cycleOption pattern.Options)),
        w₂, ?_, ?_⟩
      · rw [← hst]
      · rw [← hst, hdig]
        simp only
        rw [sprintfPad_of_width d _ hd₀ hd₁]

/-- C10, amended, at `d = 5`, `n = 7`. -/
theorem integer_segment_zero_padded_witness :
    (0 : Int) ≤ 5 ∧ (5 : Int) ≤ 1000000
    ∧ sprintfPad 5 7 = String.mk (zeroPadded (5 : Int).toNat 7)
    ∧ (sprintfPad 5 7).data.length = max (5 : Int).toNat (decimal 7).length
    ∧ parseDigits (sprintfPad 5 7).data 0 = some 7 :=
  ⟨by decide, by decide,
    (integer_segment_zero_padded 5 7 (by decide) (by decide)).1,
    (integer_segment_zero_padded 5 7 (by decide) (by decide)).2.1,
    (integer_segment_zero_padded 5 7 (by decide) (by decide)).2.2.1⟩

/-! ## C8: creation of the counter -/

/-- C8, as stated, fails for a starting value below 1, because `LastID` is a `uint`: with
`start = 0` the counter is created with `LastID = 18446744073709551615`, not `-1`, and with
`start = -1` the first allocation yields `18446744073709551615`, not `-1`. -/
theorem ensureGlobalIdExists_start_below_one :
    (ensureGlobalIdExists quietEnv "T:F:" 0 "T" "F" emptyWorld).2.rows
      = [⟨"T:F:", 18446744073709551615, 1, "自动编码: T.F"⟩]
    ∧ ((18446744073709551615 : Nat) : Int) ≠ 0 - 1
    ∧ (GlobalIdService.GetNewID quietEnv "T:F:"
        (ensureGlobalIdExists quietEnv "T:F:" (-1) "T" "F" emptyWorld).2).1
      = 18446744073709551615 := by
  decide

/-- C8, amended: for every identifier and every starting value `start` with
`1 ≤ start < 2^63`, on a store that is available, `ensureGlobalIdExists` returns no error and
afterwards the store holds a counter for the identifier. If one existed before, the rows are
exactly as they were; otherwise exactly one row was added, with `LastID = start - 1` and
`Step = 1`, and the first allocation yields `start`. A second call changes no row. -/
theorem ensureGlobalIdExists_spec (env : Env) (identifier : String) (start : Int)
    (tableCode fieldCode : String) (w : World) (hup : env.storeUp)
    (h₁ : 1 ≤ start) (h₂ : start < 2 ^ 63) :
    (ensureGlobalIdExists env identifier start tableCode fieldCode w).1 = none
    ∧ (∃ g ∈ (ensureGlobalIdExists env identifier start tableCode fieldCode w).2.rows,
        g.Identifier = identifier)
    ∧ ((∃ g ∈ w.rows, g.Identifier = identifier) →
        (ensureGlobalIdExists env identifier start tableCode fieldCode w).2.rows = w.rows)
    ∧ (w.fresh identifier →
        (∃ g, (ensureGlobalIdExists env identifier start tableCode fieldCode w).2.rows
            = w.rows ++ [g]
          ∧ g.Identifier = identifier ∧ (g.LastID : Int) = start - 1 ∧ g.Step = 1)
        ∧ ((GlobalIdService.GetNewID env identifier
            (ensureGlobalIdExists env identifier start tableCode fieldCode w).2).1 : Int) = start)
    ∧ (ensureGlobalIdExists env identifier start tableCode fieldCode
        (ensureGlobalIdExists env identifier start tableCode fieldCode w).2).1 = none
    ∧ (ensureGlobalIdExists env identifier start tableCode fieldCode
        (ensureGlobalIdExists env identifier start tableCode fieldCode w).2).2.rows
      = (ensureGlobalIdExists env identifier start tableCode fieldCode w).2.rows := by
  have hpred := toUint_pred start h₁ h₂
  by_cases hex : ∃ g ∈ w.rows, g.Identifier = identifier
  · have he := ensure_existing env identifier start tableCode fieldCode w (hup _) hex
    have hex' : ∃ g ∈ ({ w with storeOps := w.storeOps + 1 } : World).rows,
        g.Identifier = identifier := hex
    have he' := ensure_existing env identifier start tableCode fieldCode
      { w with storeOps := w.storeOps + 1 } (hup _) hex'
    rw [he, he']
    refine ⟨rfl, hex, fun _ => rfl, ?_, rfl, rfl⟩
    intro hf
    obtain ⟨g, hg, hid⟩ := hex
    exact absurd hid (hf g hg)
  · have hf : w.fresh identifier := fun g hg hid => hex ⟨g, hg, hid⟩
    have he := ensure_fresh env identifier start tableCode fieldCode w (hup _) (hup _) hf
    have hmem : ∃ g ∈ ({ rows := w.rows ++ [newCounter identifier start tableCode fieldCode]
                         storeOps := w.storeOps + 2
                         clockReads := w.clockReads } : World).rows,
        g.Identifier = identifier :=
      ⟨newCounter identifier start tableCode fieldCode, by simp, rfl⟩
    have he' := ensure_existing env identifier start tableCode fieldCode _ (hup _) hmem
    rw [he, he']
    refine ⟨rfl, hmem, fun h => absurd h hex, ?_, rfl, rfl⟩
    intro _
    refine ⟨⟨newCounter identifier start tableCode fieldCode, rfl, rfl, hpred, rfl⟩, ?_⟩
    rw [getNewID_append env identifier _ w.rows (newCounter identifier start tableCode fieldCode)
      (hup _) rfl hf rfl]
    simp only
    have hlast : (newCounter identifier start tableCode fieldCode).LastID
        = toUint (start - 1) := rfl
    have hstep : (newCounter identifier start tableCode fieldCode).Step = 1 := rfl
    rw [hlast, hstep]
    have hlt : toUint (start - 1) + 1 < 2 ^ 64 := by
      have : ((toUint (start - 1) + 1 : Nat) : Int) < 2 ^ 64 := by
        push_cast
        rw [hpred]
        omega
      exact_mod_cast this
    rw [Nat.mod_eq_of_lt hlt]
    push_cast
    rw [hpred]
    ring

/-- C8, amended, on the empty store with `start = 1`. -/
theorem ensureGlobalIdExists_spec_witness :
    quietEnv.storeUp ∧ (1 : Int) ≤ 1 ∧ (1 : Int) < 2 ^ 63
    ∧ (ensureGlobalIdExists quietEnv "T:F:" 1 "T" "F" emptyWorld).1 = none
    ∧ (∃ g ∈ (ensureGlobalIdExists quietEnv "T:F:" 1 "T" "F" emptyWorld).2.rows,
        g.Identifier = "T:F:") :=
  ⟨fun _ => rfl, by decide, by decide,
    (ensureGlobalIdExists_spec quietEnv "T:F:" 1 "T" "F" emptyWorld (fun _ => rfl)
      (by decide) (by decide)).1,
    (ensureGlobalIdExists_spec quietEnv "T:F:" 1 "T" "F" emptyWorld (fun _ => rfl)
      (by decide) (by decide)).2.1⟩

/-! ## C11: the error of a field segment -/

/-- C11: let the patterns be `pre ++ pattern :: post`, let the segments of `pre` succeed and
leave the state `st`, and let `pattern` be a field segment on `f` where `f` is absent from the
entity field map, maps to nil, or maps to a value of unsupported kind (boolean, nested object,
array, ...). Then `GenerateCode` returns an error whose message contains `f` (the text
`field f is required for autocode but not provided or is nil`, or
`field f has unsupported type for autocode: ` and the type), together with the empty code
string: the text `st.result` of the earlier segments is discarded. -/
theorem field_segment_error (env : Env) (tableCode fieldCode : String) (entityMap : FieldMap)
    (w : World) (pre post : List SequencePattern) (pattern : SequencePattern) (st : GenState)
    (f : String)
    (hpre : runPatterns env tableCode fieldCode entityMap pre
      { result := "", cycle := "", start := 1, world := w } = .next st)
    (ht : pattern.type = "field") (hf : pattern.Options "fieldCode" = some (.str f))
    (hbad : entityMap f = none ∨ entityMap f = some .nil ∨ (∃ b, entityMap f = some (.bool b))
      ∨ ∃ typeName text, entityMap f = some (.other typeName text)) :
    ∃ msg,
      GenerateCode env tableCode fieldCode (pre ++ pattern :: post) entityMap w
        = (.error msg, st.world)
      ∧ (∃ a b, msg = a ++ f ++ b)
      ∧ codeOf (GenerateCode env tableCode fieldCode (pre ++ pattern :: post) entityMap w).1 = ""
      ∧ (msg = "field " ++ f ++ " is required for autocode but not provided or is nil"
        ∨ ∃ typeName, msg = "field " ++ f ++ " has unsupported type for autocode: " ++ typeName) := by
  have hrun : ∀ msg, renderPattern env tableCode fieldCode entityMap st pattern
        = .fail msg st.world →
      GenerateCode env tableCode fieldCode (pre ++ pattern :: post) entityMap w
        = (.error msg, st.world) := by
    intro msg hround
    unfold GenerateCode
    rw [renderPatterns_eq_run, runPatterns_append, hpre]
    simp only
    rw [runPatterns, hround]
  have hfield := renderPattern_field env tableCode fieldCode entityMap st pattern f ht hf
  rcases hbad with h | h | ⟨b, h⟩ | ⟨typeName, text, h⟩
  · rw [h] at hfield
    have hg := hrun _ hfield
    exact ⟨_, hg, ⟨"field ", " is required for autocode but not provided or is nil", rfl⟩,
      by rw [hg]; rfl, Or.inl rfl⟩
  · rw [h] at hfield
    have hg := hrun _ hfield
    exact ⟨_, hg, ⟨"field ", " is required for autocode but not provided or is nil", rfl⟩,
      by rw [hg]; rfl, Or.inl rfl⟩
  · rw [h] at hfield
    have hg := hrun _ hfield
    exact ⟨_, hg, ⟨"field ", " has unsupported type for autocode: bool", rfl⟩,
      by rw [hg]; rfl, Or.inr ⟨"bool", by
        have hlit : (" has unsupported type for autocode: " ++ "bool" : String)
            = " has unsupported type for autocode: bool" := by decide
        rw [String.append_assoc ("field " ++ f) " has unsupported type for autocode: " "bool",
          hlit]⟩⟩
  · rw [h] at hfield
    have hg := hrun _ hfield
    exact ⟨_, hg, ⟨"field ", " has unsupported type for autocode: " ++ typeName,
        String.append_assoc _ _ _⟩,
      by rw [hg]; rfl, Or.inr ⟨typeName, rfl⟩⟩

/-- C11 at a field segment on `dept` after the literal `INV-`, with no `dept` in the map. -/
theorem field_segment_error_witness :
    bareRequest "dept" = none
    ∧ ∃ msg,
      GenerateCode quietEnv "T" "code"
          ([⟨"string", FieldMap.ofList [("value", .str "INV-")]⟩] ++ deptPattern :: [])
          bareRequest emptyWorld = (.error msg, emptyWorld)
      ∧ (∃ a b, msg = a ++ "dept" ++ b) :=
  ⟨by decide,
    (field_segment_error quietEnv "T" "code" bareRequest emptyWorld
      [⟨"string", FieldMap.ofList [("value", .str "INV-")]⟩] [] deptPattern
      { result := "INV-", cycle := "", start := 1, world := emptyWorld } "dept"
      rfl rfl rfl (Or.inl (by decide))).imp fun _ h => ⟨h.1, h.2.1⟩⟩

/-! ## C12: a field segment on an empty string -/

/-- C12 fails on the code: a field segment whose field holds the empty string does not fail.
With `dept = ""` the segment appends the empty text and `GenerateCode` returns the code `""`
and no error, whereas without `dept` it returns the error; the orchestrator's own test counts
the empty string as no value. A creation with `dept = ""` and the patterns `INV-`, field `dept`
ends without error and with the code `INV-`; the same creation without `dept` is refused. -/
theorem empty_field_renders :
    GenerateCode quietEnv "T" "code" [deptPattern] deptEmpty emptyWorld = (.ok "", emptyWorld)
    ∧ GenerateCode quietEnv "T" "code" [deptPattern] bareRequest emptyWorld
      = (.error "field dept is required for autocode but not provided or is nil", emptyWorld)
    ∧ present (deptEmpty "dept") = false
    ∧ (GenerateOrRestoreAutocodes quietEnv "T" emptyDeptRequest deptLookup priorRepository
        emptyWorld).1 = none
    ∧ (GenerateOrRestoreAutocodes quietEnv "T" emptyDeptRequest deptLookup priorRepository
        emptyWorld).2.1 "code" = some (.str "INV-")
    ∧ (GenerateOrRestoreAutocodes quietEnv "T" bareRequest deptLookup priorRepository
        emptyWorld).1
      = some "生成自动编码失败: field dept is required for autocode but not provided or is nil" := by
  decide

/-- What the code does with an empty string, in general: a field segment with fieldCode `f`
whose field holds the empty string appends the empty text and leaves the state of the loop as
it is, so `GenerateCode` returns what it returns for the pattern list without that segment; for
the segment alone that is the empty code and no error. -/
theorem empty_field_segment_skipped (env : Env) (tableCode fieldCode : String)
    (entityMap : FieldMap) (pre post : List SequencePattern) (pattern : SequencePattern)
    (f : String) (ht : pattern.type = "field")
    (hf : pattern.Options "fieldCode" = some (.str f))
    (hempty : entityMap f = some (.str "")) :
    (∀ st, renderPattern env tableCode fieldCode entityMap st pattern = .next st)
    ∧ (∀ w, GenerateCode env tableCode fieldCode (pre ++ pattern :: post) entityMap w
        = GenerateCode env tableCode fieldCode (pre ++ post) entityMap w)
    ∧ (∀ w, GenerateCode env tableCode fieldCode [pattern] entityMap w = (.ok "", w)) := by
  have hround : ∀ st, renderPattern env tableCode fieldCode entityMap st pattern = .next st := by
    intro st
    rw [renderPattern_field env tableCode fieldCode entityMap st pattern f ht hf, hempty]
    simp only [ToUpper_empty, String.append_empty]
  have hdrop : ∀ st, runPatterns env tableCode fieldCode entityMap (pre ++ pattern :: post) st
      = runPatterns env tableCode fieldCode entityMap (pre ++ post) st := by
    intro st
    rw [runPatterns_append, runPatterns_append]
    cases runPatterns env tableCode fieldCode entityMap pre st with
    | fail err w => rfl
    | next st' =>
      simp only
      rw [runPatterns, hround]
  refine ⟨hround, ?_, ?_⟩
  · intro w
    unfold GenerateCode
    rw [renderPatterns_eq_run, renderPatterns_eq_run, hdrop]
  · intro w
    unfold GenerateCode
    rw [renderPatterns, hround]
    rfl

/-- The segment on `dept` with `dept = ""` is such a segment. -/
theorem empty_field_segment_skipped_witness :
    deptEmpty "dept" = some (.str "")
    ∧ GenerateCode quietEnv "T" "code" [deptPattern] deptEmpty emptyWorld = (.ok "", emptyWorld) :=
  ⟨by decide,
    (empty_field_segment_skipped quietEnv "T" "code" deptEmpty [] [] deptPattern "dept"
      rfl (by decide) (by decide)).2.2 emptyWorld⟩

/-! ## C13: what a field segment appends -/

/-- C13: a field segment on `f` whose field holds a text `s` appends the upper-cased `s`: a
text of the same length in which every letter `a` to `z` is replaced by `A` to `Z`, every other
ASCII character is kept and every character above ASCII is mapped by the Unicode case table.
When the field holds a signed or an unsigned integer, the segment appends its decimal
representation (a minus sign for a negative number, then the digits, which read back as the
magnitude). The world stays as it is, and no key of the entity field map other than the code of
an autocode field is written, neither by the round that calls `GenerateCode` nor by the whole
call of the orchestrator: the field the segment refers to keeps its value. So `dept = 42`
appends `42`, `dept = -42` appends `-42` and `dept = r&d-7z` appends `R&D-7Z`. -/
theorem field_segment_appends (env : Env) (tableCode fieldCode : String)
    (entityMap : FieldMap) (st : GenState) (pattern : SequencePattern) (f : String)
    (ht : pattern.type = "field") (hf : pattern.Options "fieldCode" = some (.str f)) :
    (∀ s, entityMap f = some (.str s) →
      renderPattern env tableCode fieldCode entityMap st pattern
          = .next { st with result := st.result ++ ToUpper env s }
      ∧ List.Forall₂ (UpperOf env) s.data (ToUpper env s).data)
    ∧ (∀ n : Int, entityMap f = some (.int n) →
      renderPattern env tableCode fieldCode entityMap st pattern
        = .next { st with result := st.result ++ String.mk (fmtInt n) })
    ∧ (∀ n : Nat, entityMap f = some (.uint n) →
      renderPattern env tableCode fieldCode entityMap st pattern
        = .next { st with result := st.result ++ String.mk (decimal n) })
    ∧ (∀ n : Nat, parseDigits (decimal n) 0 = some n)
    ∧ (∀ n : Int, 0 ≤ n → fmtInt n = decimal n.toNat)
    ∧ (∀ n : Int, n < 0 → fmtInt n = '-' :: decimal (-n).toNat)
    ∧ (∀ (field : TableField) (m₁ : FieldMap) (w w₁ : World),
        generateField env tableCode field entityMap w = .ok (m₁, w₁) →
        ∀ k, k ≠ field.Code → m₁ k = entityMap k)
    ∧ (∀ (tableFieldService : TableFieldService) (entityRepository : EntityRepository)
        (w : World) (k : String),
        (∀ autocodeFields,
          tableFieldService.Find "code,options" (fieldWhere tableCode) = .ok autocodeFields →
          ∀ field ∈ autocodeFields, field.Code ≠ k) →
        (GenerateOrRestoreAutocodes env tableCode entityMap tableFieldService entityRepository
          w).2.1 k = entityMap k)
    ∧ GenerateCode quietEnv "T" "code" [deptPattern] deptNumber emptyWorld
      = (.ok "42", emptyWorld)
    ∧ GenerateCode quietEnv "T" "code" [deptPattern] (FieldMap.ofList [("dept", .int (-42))])
        emptyWorld = (.ok "-42", emptyWorld)
    ∧ GenerateCode quietEnv "T" "code" [deptPattern] (FieldMap.ofList [("dept", .uint 7)])
        emptyWorld = (.ok "7", emptyWorld)
    ∧ GenerateCode quietEnv "T" "code" [deptPattern] deptText emptyWorld
      = (.ok "R&D-7Z", emptyWorld)
    ∧ GenerateCode quietEnv "T" "code" [deptPattern] deptAccent emptyWorld
      = (.ok "CAFÉ", emptyWorld) := by
  have hfield := renderPattern_field env tableCode fieldCode entityMap st pattern f ht hf
  refine ⟨?_, ?_, ?_, parseDigits_decimal_zero, ?_, ?_, ?_, ?_,
    by decide, by decide, by decide, by decide, by decide⟩
  · intro s hs
    refine ⟨?_, ToUpper_spec env s⟩
    rw [hfield, hs]
  · intro n hn
    rw [hfield, hn]
    simp only [ToUpper_fmtInt]
  · intro n hn
    rw [hfield, hn]
    simp only [ToUpper_decimal]
  · intro n hn
    unfold fmtInt
    have h : ¬ n < 0 := by omega
    simp only [h, if_false]
    congr 1
    omega
  · intro n hn
    unfold fmtInt
    simp only [hn, if_true]
    congr 2
    omega
  · intro field m₁ w w₁ h k hk
    exact generateField_other_keys env tableCode field entityMap m₁ w w₁ h k hk
  · intro tableFieldService entityRepository w k hk
    exact orchestrator_other_keys env tableCode entityMap tableFieldService entityRepository w
      k hk

/-- C13 at the segment on `dept` with `dept = r&d-7z`: the segment appends `R&D-7Z`, which is
the upper case of the text character by character. -/
theorem field_segment_appends_witness :
    deptPattern.type = "field"
    ∧ deptText "dept" = some (.str "r&d-7z")
    ∧ ToUpper quietEnv "r&d-7z" = "R&D-7Z"
    ∧ renderPattern quietEnv "T" "code" deptText
        { result := "", cycle := "", start := 1, world := emptyWorld } deptPattern
      = .next { result := "" ++ ToUpper quietEnv "r&d-7z", cycle := "", start := 1,
                world := emptyWorld }
    ∧ List.Forall₂ (UpperOf quietEnv) "r&d-7z".data (ToUpper quietEnv "r&d-7z").data :=
  ⟨rfl, by decide, by decide,
    ((field_segment_appends quietEnv "T" "code" deptText
      { result := "", cycle := "", start := 1, world := emptyWorld } deptPattern "dept"
      rfl (by decide)).1 "r&d-7z" (by decide)).1,
    ((field_segment_appends quietEnv "T" "code" deptText
      { result := "", cycle := "", start := 1, world := emptyWorld } deptPattern "dept"
      rfl (by decide)).1 "r&d-7z" (by decide)).2⟩

end Autocode
